import Mathlib

/-!
Verification of the quantum state engine of the Online-Quantum-Chess repository.

The embedding covers `quantum_chess/quantum/quant.py` (the `QuantumPiece` class:
`split`, `entangle_oneblock`, `entangle_twoblock`, `detangle`, `measure`,
`_classical_measure`) and the move-resolution logic of the Django view layer
(`quantum_chess/views.py`: `make_move`, `quantum_split`), which is the module
wired up by `quantum_chess/urls.py`.

Modelling conventions:
* Python floats are modelled as exact rationals (`Rat`); the spec's 1e-9
  tolerance statements are settled by exact equalities.
* `self.qnum` (`{state_id: [position, probability]}`, an insertion-ordered
  Python dict with unique keys) is modelled as an association list keeping
  insertion order: assigning an existing key rewrites it in place, assigning a
  new key appends it at the end, `del` removes it.
* Methods that can raise a Python exception (`KeyError` on a missing state id,
  `IndexError`/`ValueError` on a malformed state id) return `Option`; `none` is
  the raised exception.
* Python object identity between entangled `QuantumPiece`s is modelled by
  indices into a world, the list of all pieces of a game, mirroring how the
  tuples in `self.ent` hold references to the partner objects.
* The classical chess library (`python-chess`) is the out-of-scope collaborator
  of the spec; its answers (`is_capture`, `legal_moves` membership, `piece_at`,
  the FEN after a push) enter the view-layer embedding as oracle parameters.
-/

/-- A state id: the binary-string key of `qnum` (e.g. `"0"`, `"01"`). -/
abbrev StateId := String

/-- A board square name (e.g. `"e4"`). -/
abbrev Square := String

/-- One piece's probability state: the `qnum` dict as an ordered association
list `state_id ↦ (position, probability)`. -/
abbrev Qnum := List (StateId × Square × Rat)

/-- Python `s.startswith(pre)`, computed on the character lists. -/
def idStartsWith (pre s : String) : Bool := pre.data.isPrefixOf s.data

/-- Dict read `q[k]`: the first (in a real dict: only) binding of `k`. -/
def qlookup : Qnum → StateId → Option (Square × Rat)
  | [], _ => none
  | (k0, v0) :: r, k => if k0 = k then some v0 else qlookup r k

/-- Dict write `q[k] = v`: overwrite the binding in place if `k` is present,
append a fresh binding at the end otherwise (Python dict semantics). -/
def qset : Qnum → StateId → Square × Rat → Qnum
  | [], k, v => [(k, v)]
  | (k0, v0) :: r, k, v => if k0 = k then (k0, v) :: r else (k0, v0) :: qset r k v

/-- Dict delete `del q[k]` (drops the binding of `k`). -/
def qdel : Qnum → StateId → Qnum
  | [], _ => []
  | (k0, v0) :: r, k => if k0 = k then r else (k0, v0) :: qdel r k

/-- The keys of a `qnum` dict, in order. -/
def qkeys (q : Qnum) : List StateId := q.map (fun e => e.1)

/-- The total probability mass of a `qnum` dict. -/
def sumProbs : Qnum → Rat
  | [] => 0
  | e :: r => e.2.2 + sumProbs r

/-- The state-id flip `obj_add[:-1] + str(int(not(int(obj_add[-1]))))` used by
the entangle methods to name the sibling branch of `obj_add`: the last
character is replaced by `'1'` if it is `'0'` and by `'0'` if it is any other
digit. `none` models the exception Python raises on an empty id (`IndexError`)
or a non-digit last character (`ValueError`). -/
def flipLast (s : StateId) : Option StateId :=
  match s.data.getLast? with
  | none => none
  | some c =>
      if c.isDigit then some ⟨s.data.dropLast ++ [if c = '0' then '1' else '0']⟩ else none

/-- A `QuantumPiece` of `quant.py`: the piece symbol, the `qnum` probability
state and the entanglement list `ent`. An entry `(partner, partnerState,
myState)` of `ent` mirrors a Python tuple `(obj, state_to_detangle_on_obj,
own_condition_state)`; the object reference is a world index here. -/
structure QuantumPiece where
  piece : String
  qnum : Qnum
  ent : List (Nat × StateId × StateId)
  deriving DecidableEq, Inhabited

/-- The pieces of one game (`QuantumGame.quantum_pieces`); Python object
references are indices into this list. -/
abbrev World := List QuantumPiece

/-- Dereference a world index (Python references are always valid, so the
default value is never produced in the reachable statements below). -/
def getP (w : World) (i : Nat) : QuantumPiece := (w.get? i).getD default

/-- Write back the piece at a world index. -/
def setP (w : World) (i : Nat) (p : QuantumPiece) : World := w.set i p

namespace QuantumPiece

/-- Embeds `QuantumPiece.__init__` (quant.py lines 43–55): one branch at the
given position with probability 1 and no entanglement. -/
def init (position : Square) (piece : String) : QuantumPiece :=
  { piece := piece, qnum := [( "0", (position, 1))], ent := [] }

/-- Embeds `QuantumPiece.split(i_add, pos1, pos2)` (quant.py lines 57–74): the
branch `i_add`, of probability p, is replaced by `i_add+"0" ↦ (pos1, p/2)` and
`i_add+"1" ↦ (pos2, p/2)`; `none` is the `KeyError` raised when `i_add` is not
a current state id. -/
def split (self : QuantumPiece) (iAdd : StateId) (pos1 pos2 : Square) :
    Option QuantumPiece :=
  match qlookup self.qnum iAdd with
  | none => none
  | some (_, p) =>
      some { self with
        qnum := qdel (qset (qset self.qnum (iAdd ++ "0") (pos1, p / 2))
          (iAdd ++ "1") (pos2, p / 2)) iAdd }

/-- Embeds `QuantumPiece.detangle(add, obj)` (quant.py lines 182–201): every
branch whose state id has `add` as a prefix is deleted; the probability mass
`probs` of the surviving branches is accumulated during the same loop, and the
survivors are divided by `probs` only when `probs > 0`. The Python `obj`
argument is unused by the method body and is omitted here. -/
def detangle (self : QuantumPiece) (add : StateId) : QuantumPiece :=
  let kept := self.qnum.filter (fun e => !(idStartsWith add e.1))
  let probs := sumProbs kept
  { self with
    qnum := if 0 < probs then kept.map (fun e => (e.1, e.2.1, e.2.2 / probs)) else kept }

/-- Embeds `QuantumPiece.entangle_oneblock(i_add, pos1, obj, obj_add)`
(quant.py lines 76–112) acting on a world; `selfI` is the mover and `objI` the
blocking piece. With x the mover's branch probability and y the blocker's, the
mover's branch `i_add` becomes `i_add+"0"` ("blocked", keeps its own square,
probability x·y) and `i_add+"1"` ("moved" to `pos1`, probability x·(1−y)); two
entanglement tuples are appended on the blocker and two on the mover. `none`
models the exceptions on a missing state id or a malformed `obj_add` (on which
Python would stop after partially mutating `self.qnum`; no claim concerns that
path). -/
def entangle_oneblock (w : World) (selfI : Nat) (iAdd : StateId) (pos1 : Square)
    (objI : Nat) (objAdd : StateId) : Option World :=
  let self0 := getP w selfI
  match qlookup self0.qnum iAdd, qlookup (getP w objI).qnum objAdd, flipLast objAdd with
  | some (selfPos, x), some (_, y), some lastState =>
      let newQnum := qdel (qset (qset self0.qnum (iAdd ++ "0") (selfPos, x * y))
        (iAdd ++ "1") (pos1, x * (1 - y))) iAdd
      let w1 := setP w selfI { self0 with qnum := newQnum }
      let obj1 := getP w1 objI
      let w2 := setP w1 objI { obj1 with
        ent := obj1.ent ++ [(selfI, iAdd ++ "1", objAdd), (selfI, iAdd ++ "0", lastState)] }
      let self2 := getP w2 selfI
      some (setP w2 selfI { self2 with
        ent := self2.ent ++ [(objI, objAdd, iAdd ++ "1"), (objI, lastState, iAdd ++ "0")] })
  | _, _, _ => none

/-- Embeds `QuantumPiece.entangle_twoblock(i_add, pos1, pos2, obj1, obj1_add,
obj2, obj2_add)` (quant.py lines 114–180) acting on a world. When the two
blocking states belong to the same piece (`obj1 == obj2`, object identity:
equal world indices) the mover's branch becomes two branches at `pos1`/`pos2`;
with two distinct blockers it becomes three branches (`i_add+"00"` unmoved,
`i_add+"01"` at `pos1`, `i_add+"10"` at `pos2`), with the probabilities
computed in the source. Four entanglement tuples are appended on the mover and
two on each blocker. -/
def entangle_twoblock (w : World) (selfI : Nat) (iAdd : StateId)
    (pos1 pos2 : Square) (obj1I : Nat) (obj1Add : StateId)
    (obj2I : Nat) (obj2Add : StateId) : Option World :=
  let self0 := getP w selfI
  match qlookup self0.qnum iAdd, qlookup (getP w obj1I).qnum obj1Add,
      qlookup (getP w obj2I).qnum obj2Add, flipLast obj1Add, flipLast obj2Add with
  | some (selfPos, x), some (_, y1), some (_, y2), some last1, some last2 =>
    if obj1I = obj2I then
      let probPos1 := x * y2 + 1 / 2 * x * (1 - y1 - y2)
      let probPos2 := x * y1 + 1 / 2 * x * (1 - y1 - y2)
      let newQnum := qdel (qset (qset self0.qnum (iAdd ++ "0") (pos1, probPos1))
        (iAdd ++ "1") (pos2, probPos2)) iAdd
      let w1 := setP w selfI { self0 with qnum := newQnum }
      let ob1 := getP w1 obj1I
      let w2 := setP w1 obj1I { ob1 with
        ent := ob1.ent ++ [(selfI, iAdd ++ "0", obj1Add), (selfI, iAdd ++ "1", last1)] }
      let ob2 := getP w2 obj2I
      let w3 := setP w2 obj2I { ob2 with
        ent := ob2.ent ++ [(selfI, iAdd ++ "1", obj2Add), (selfI, iAdd ++ "0", last2)] }
      let self3 := getP w3 selfI
      some (setP w3 selfI { self3 with
        ent := self3.ent ++ [(obj1I, obj1Add, iAdd ++ "0"), (obj1I, last1, iAdd ++ "1"),
          (obj2I, obj2Add, iAdd ++ "1"), (obj2I, last2, iAdd ++ "0")] })
    else
      let probUnmoved := x * y1 * y2
      let probPos1 := x * (1 - y1) * y2 + 1 / 2 * x * (1 - y1) * (1 - y2)
      let probPos2 := x * y1 * (1 - y2) + 1 / 2 * x * (1 - y1) * (1 - y2)
      let newQnum := qdel (qset (qset (qset self0.qnum
        (iAdd ++ "00") (selfPos, probUnmoved))
        (iAdd ++ "01") (pos1, probPos1))
        (iAdd ++ "10") (pos2, probPos2)) iAdd
      let w1 := setP w selfI { self0 with qnum := newQnum }
      let ob1 := getP w1 obj1I
      let w2 := setP w1 obj1I { ob1 with
        ent := ob1.ent ++ [(selfI, iAdd ++ "01", obj1Add), (selfI, iAdd ++ "00", last1)] }
      let ob2 := getP w2 obj2I
      let w3 := setP w2 obj2I { ob2 with
        ent := ob2.ent ++ [(selfI, iAdd ++ "10", obj2Add), (selfI, iAdd ++ "00", last2)] }
      let self3 := getP w3 selfI
      some (setP w3 selfI { self3 with
        ent := self3.ent ++ [(obj1I, obj1Add, iAdd ++ "01"), (obj1I, last1, iAdd ++ "00"),
          (obj2I, obj2Add, iAdd ++ "10"), (obj2I, last2, iAdd ++ "00")] })
  | _, _, _, _, _ => none

/-- One iteration of the detangle loop of `measure()` (quant.py lines
258–261): if the tuple's own-condition state is a prefix of the winning state
id, the partner referenced by the tuple is detangled at the tuple's partner
state id. -/
def detangleStep (finalState : StateId) (wa : World) (e : Nat × StateId × StateId) :
    World :=
  if idStartsWith e.2.2 finalState then
    setP wa e.1 ((getP wa e.1).detangle e.2.1)
  else wa

/-- Embeds the collapse part of `QuantumPiece.measure()` (quant.py lines
256–269), entered with the winning state id `finalState` (the Qiskit
single-shot sample of lines 214–254, mapped back onto a key of `qnum`): the
detangle loop over `self.ent` is the fold of `detangleStep`; afterwards the
measured piece's `qnum` is replaced by the single branch `"0" ↦ (final_pos,
1)`, its `ent` is cleared, and `(final_pos, 1.0)` is returned. `none` models
the `KeyError` when `finalState` is not a key of `qnum`. -/
def measure_collapse (w : World) (selfI : Nat) (finalState : StateId) :
    Option ((Square × Rat) × World) :=
  let self0 := getP w selfI
  let w1 := self0.ent.foldl (detangleStep finalState) w
  match qlookup (getP w1 selfI).qnum finalState with
  | none => none
  | some (finalPos, _) =>
      some ((finalPos, 1),
        setP w1 selfI { getP w1 selfI with qnum := [( "0", (finalPos, 1))], ent := [] })

/-- One step of the sampling loop of `_classical_measure` (quant.py lines
287–290): walk the branches accumulating the cumulative normalized
probability; the first branch whose cumulative value reaches `rand` is
returned, as `(position, stored probability)`. -/
def pickState : List ((StateId × Square × Rat) × Rat) → Rat → Rat → Option (Square × Rat)
  | [], _, _ => none
  | (e, np) :: rest, rand, cum =>
      let c := cum + np
      if rand ≤ c then some (e.2.1, e.2.2) else pickState rest rand c

/-- Embeds `QuantumPiece._classical_measure()` (quant.py lines 271–293), the
path `measure()` takes whenever Qiskit or its backend is unavailable, with the
result of `random.random()` injected as `rand`. The method only samples: the
probability list is normalized (when its total is positive) for the cumulative
draw, the chosen branch's `(position, stored probability)` is returned — and no
attribute of the piece is assigned, so the piece itself is returned unchanged.
`none` models the `IndexError` on an empty `qnum`. -/
def classical_measure (self : QuantumPiece) (rand : Rat) :
    Option ((Square × Rat) × QuantumPiece) :=
  match self.qnum with
  | [] => none
  | first :: _ =>
      let probs := self.qnum.map (fun e => e.2.2)
      let total := sumProbs self.qnum
      let normalized := if 0 < total then probs.map (fun p => p / total) else probs
      some ((pickState (self.qnum.zip normalized) rand 0).getD (first.2.1, first.2.2), self)

end QuantumPiece

/-- A quantum piece as stored in `Game.quantum_pieces` (the JSON list the views
round-trip through the database): piece symbol, a `position` field, the `qnum`
dict and the serialized entanglement triples
`[partner piece symbol, state, related_state]`. -/
structure StoredQP where
  piece : String
  position : Square
  qnum : Qnum
  entangled : List (String × StateId × StateId)
  deriving DecidableEq, Inhabited

/-- The persisted `Game` row fields that `make_move`/`quantum_split` read and
write: `fen_position`, `current_turn`, `quantum_mode`, `quantum_pieces`,
`status`. -/
structure GameState where
  fenPosition : String
  currentTurn : Bool
  quantumMode : Bool
  quantumPieces : List StoredQP
  status : String
  deriving DecidableEq, Inhabited

/-- The answers of the classical chess collaborator (`python-chess`) consumed by
`make_move`; the spec treats the rules engine as an external collaborator, so
its answers are oracle inputs here. `finalFen` stands for `board.fen()` on the
committed path, after the `set_piece_at`/`push` calls of lines 258–276. -/
structure ChessApi where
  isCapture : Bool
  moveIsLegal : Bool
  attackLegal : Square → Bool
  finalFen : String
  san : String
  newStatus : String
  deriving Inhabited

/-- The JSON responses of `make_move` that matter to the stored state: the
early legality rejection (line 132), the two post-measurement capture
rejections (lines 218–223 and 244–249, both carrying the unchanged
`game_obj.fen_position`), and the committed success (lines 299–306). -/
inductive MoveResponse where
  | illegalMove
  | captureFailedAttacker (measuredPos fen : String)
  | captureFailedDefender (measuredPos fen : String)
  | success (fen san : String) (quantumPieces : List StoredQP)
  deriving DecidableEq

/-- The first stored piece claiming the square in one of its branches (the
detection loops of `make_move`, lines 100–107 and 143–165). -/
def firstPieceAt (l : List StoredQP) (sq : Square) : Option StoredQP :=
  l.find? (fun d => d.qnum.any (fun e => e.2.1 = sq))

/-- Index of the first stored piece claiming the square (the search-and-pop
loops over `measured_quantum_pieces`, lines 199–209 and 229–239). -/
def firstIdxAt (l : List StoredQP) (sq : Square) : Option Nat :=
  l.findIdx? (fun d => d.qnum.any (fun e => e.2.1 = sq))

namespace Views

/-- Embeds `views.make_move` (views.py lines 42–309), the move-resolution
protocol, for a request with both squares present. The collapse positions the
two `temp_qp.measure()` calls return are injected as `attackerOutcome` and
`defenderOutcome` (measurement is randomized; only the returned position steers
the control flow). The Django `Move` row insert and the JSON serialization are
out of scope; board mutations are collaborator calls summarized by
`api.finalFen`. The measured temporary pieces are reconstructed from a deep
copy of the stored data (line 172), so the second component of the result is
the `game_obj` row as it stands when the response is returned — rejection paths
return before `game_obj.save()` (line 284), leaving it untouched. -/
def make_move (game : GameState) (fromSq toSq : Square) (reqQuantumMode : Bool)
    (api : ChessApi) (attackerOutcome defenderOutcome : Square) :
    MoveResponse × GameState :=
  let qdata := game.quantumPieces
  -- STEP 1 (lines 95–111): quantum occupancy of the squares; a capture is
  -- declared if the classical board says so or the target has quantum claims.
  let sourceHasQuantum := qdata.any (fun d => d.qnum.any (fun e => e.2.1 = fromSq))
  let targetHasQuantum := qdata.any (fun d => d.qnum.any (fun e => e.2.1 = toSq))
  let isCaptureDeclared := api.isCapture || targetHasQuantum
  -- lines 128–134: classical legality pre-check, skipped for quantum sources
  -- and declared captures.
  if ¬sourceHasQuantum ∧ ¬isCaptureDeclared ∧ ¬api.moveIsLegal then
    (MoveResponse.illegalMove, game)
  else
    -- lines 143–165: the moving/captured quantum pieces (first match; their
    -- symbols are truthy for every piece the views store).
    let movingQuantum := firstPieceAt qdata fromSq
    let capturedQuantum := firstPieceAt qdata toSq
    -- STEP 3 (lines 197–224): measure the attacker first, pop it from the
    -- measured copy, and reject if it collapsed away and cannot reach `toSq`.
    let attacker : Option MoveResponse × List StoredQP :=
      if movingQuantum.isSome ∧ isCaptureDeclared then
        match firstIdxAt qdata fromSq with
        | some i =>
            let rest := qdata.eraseIdx i
            if attackerOutcome ≠ fromSq ∧ ¬(api.attackLegal attackerOutcome) then
              (some (MoveResponse.captureFailedAttacker attackerOutcome game.fenPosition), rest)
            else (none, rest)
        | none => (none, qdata)
      else (none, qdata)
    match attacker with
    | (some resp, _) => (resp, game)
    | (none, measured1) =>
      -- lines 227–250: then measure the defender on the now-stable list and
      -- reject the declared capture if it collapsed to another square.
      let defender : Option MoveResponse × List StoredQP :=
        if capturedQuantum.isSome then
          match firstIdxAt measured1 toSq with
          | some i =>
              let rest := measured1.eraseIdx i
              if isCaptureDeclared ∧ defenderOutcome ≠ toSq then
                (some (MoveResponse.captureFailedDefender defenderOutcome game.fenPosition), rest)
              else (none, rest)
          | none => (none, measured1)
        else (none, measured1)
      match defender with
      | (some resp, _) => (resp, game)
      | (none, measured2) =>
          -- STEP 6 (lines 258–306): push the move on the classical board,
          -- persist the measured list and the flipped turn, and save.
          (MoveResponse.success api.finalFen api.san measured2,
            { fenPosition := api.finalFen
              currentTurn := ¬game.currentTurn
              quantumMode := reqQuantumMode
              quantumPieces := measured2
              status := api.newStatus })

end Views

/-- The collaborator answers consumed by `views.quantum_split`: the piece at
the source square (symbol), truthiness of `board.piece_at` on the two targets,
and the post-commit board data (`board.fen()` after `remove_piece_at(from_sq)`
and the turn flip, the flipped `board.turn`, and `update_game_status`). The
routed view never asks the rules engine for the legal moves of the split
piece. -/
structure SplitApi where
  pieceAtFrom : Option String
  pieceAtTo1 : Bool
  pieceAtTo2 : Bool
  fenAfter : String
  boardTurnAfter : Bool
  newStatus : String
  deriving Inhabited

/-- The JSON responses of `views.quantum_split`: the three rejections (lines
409, 413, 418) and the committed success (lines 482–492). -/
inductive SplitResponse where
  | noPieceAtSource
  | equalTargets
  | occupiedTargets
  | splitDone (quantumPieces : List StoredQP) (fen : String)
  deriving DecidableEq

/-- The first state id of a `qnum` claiming the square (the inner loops of the
existing-piece searches, e.g. views.py lines 422–429). -/
def findStateAt (q : Qnum) (sq : Square) : Option StateId :=
  (q.find? (fun e => e.2.1 = sq)).map (fun e => e.1)

/-- The first reconstructed piece (with its index) holding a branch at the
square, as in views.py lines 420–429. -/
def findPieceAt : List QuantumPiece → Square → Option (Nat × StateId)
  | [], _ => none
  | qp :: rest, sq =>
      match findStateAt qp.qnum sq with
      | some st => some (0, st)
      | none => (findPieceAt rest sq).map (fun p => (p.1 + 1, p.2))

/-- The `position` field recomputed during serialization (views.py lines
440–444): the square of the first `qnum` value when it is truthy, else
`'a1'`. -/
def storedPosition (q : Qnum) : Square :=
  match q with
  | [] => "a1"
  | e :: _ => if e.2.1 ≠ "" then e.2.1 else "a1"

/-- Serialization of one entanglement tuple (views.py line 450): the partner
reference becomes its piece symbol. -/
def serializeEnt (pieces : List QuantumPiece) (e : Nat × StateId × StateId) :
    String × StateId × StateId :=
  (((pieces.get? e.1).map (fun p => p.piece)).getD "None", e.2.1, e.2.2)

/-- Serialization of the reconstructed pieces back into stored form (views.py
lines 438–451). -/
def serializePieces (pieces : List QuantumPiece) : List StoredQP :=
  pieces.map (fun qp =>
    { piece := qp.piece
      position := storedPosition qp.qnum
      qnum := qp.qnum
      entangled := qp.ent.map (serializeEnt pieces) })

namespace Views

/-- Embeds `views.quantum_split` (views.py lines 368–494), the split endpoint
routed by `urls.py`. Validation (lines 408–418): a piece must sit on the source
square, the two targets must differ, and — only when the game is *not* already
in quantum mode — the target squares must be classically empty. The piece's
movement rule is never consulted. On success the matching reconstructed piece
(entanglement data is not reconstructed, lines 393–402) or a fresh one is
split, the serialized list is stored, quantum mode is forced on, the source
square is cleared on the classical board and the turn flips (lines 431–467).
Rejections return before any mutation of the stored row. -/
def quantum_split (game : GameState) (fromSq to1 to2 : Square) (api : SplitApi) :
    SplitResponse × GameState :=
  let pieces : List QuantumPiece :=
    game.quantumPieces.map (fun d => { piece := d.piece, qnum := d.qnum, ent := [] })
  match api.pieceAtFrom with
  | none => (SplitResponse.noPieceAtSource, game)
  | some pieceSym =>
    if to1 = to2 then (SplitResponse.equalTargets, game)
    else if ¬game.quantumMode ∧ (api.pieceAtTo1 ∨ api.pieceAtTo2) then
      (SplitResponse.occupiedTargets, game)
    else
      let newPieces : List QuantumPiece :=
        match findPieceAt pieces fromSq with
        | some (i, st) =>
            match (getP pieces i).split st to1 to2 with
            | some qp => pieces.set i qp
            | none => pieces
        | none =>
            match (QuantumPiece.init fromSq pieceSym).split "0" to1 to2 with
            | some qp => pieces ++ [qp]
            | none => pieces
      let stored := serializePieces newPieces
      (SplitResponse.splitDone stored api.fenAfter,
        { fenPosition := api.fenAfter
          currentTurn := api.boardTurnAfter
          quantumMode := true
          quantumPieces := stored
          status := api.newStatus })

end Views

/-- The collaborator answers consumed by `views_updated.quantum_split`, which
additionally asks for the legal moves from the source square: `isLegalTarget`
states whether a square is among the `move.to_square` of
`board.legal_moves` restricted to `from_square` (lines 297–302). -/
structure SplitApiU where
  pieceAtFrom : Option String
  pieceAtTo1 : Bool
  pieceAtTo2 : Bool
  isLegalTarget1 : Bool
  isLegalTarget2 : Bool
  fenAfter : String
  boardTurnAfter : Bool
  newStatus : String
  deriving Inhabited

/-- The responses of `views_updated.quantum_split`: rejections at lines 295,
302, 305 and the success at line 353. -/
inductive SplitResponseU where
  | noPieceAtSource
  | illegalTargets
  | occupiedTargets
  | splitDone (quantumPieces : List StoredQP) (fen : String)
  deriving DecidableEq

namespace ViewsUpdated

/-- Embeds `views_updated.quantum_split` (views_updated.py lines 265–355), the
non-routed variant of the split endpoint: it rejects targets that are not legal
moves of the piece from the source square (lines 297–302) and always rejects
classically occupied targets (lines 304–305). -/
def quantum_split (game : GameState) (fromSq to1 to2 : Square) (api : SplitApiU) :
    SplitResponseU × GameState :=
  let pieces : List QuantumPiece :=
    game.quantumPieces.map (fun d => { piece := d.piece, qnum := d.qnum, ent := [] })
  match api.pieceAtFrom with
  | none => (SplitResponseU.noPieceAtSource, game)
  | some pieceSym =>
    if ¬api.isLegalTarget1 ∨ ¬api.isLegalTarget2 then
      (SplitResponseU.illegalTargets, game)
    else if api.pieceAtTo1 ∨ api.pieceAtTo2 then
      (SplitResponseU.occupiedTargets, game)
    else
      let newPieces : List QuantumPiece :=
        match findPieceAt pieces fromSq with
        | some (i, st) =>
            match (getP pieces i).split st to1 to2 with
            | some qp => pieces.set i qp
            | none => pieces
        | none =>
            match (QuantumPiece.init fromSq pieceSym).split "0" to1 to2 with
            | some qp => pieces ++ [qp]
            | none => pieces
      let stored := serializePieces newPieces
      (SplitResponseU.splitDone stored api.fenAfter,
        { fenPosition := api.fenAfter
          currentTurn := api.boardTurnAfter
          quantumMode := game.quantumMode
          quantumPieces := stored
          status := api.newStatus })

end ViewsUpdated

/-! Basic facts about the dict operations. -/

theorem qlookup_qset_self (q : Qnum) (k : StateId) (v : Square × Rat) :
    qlookup (qset q k v) k = some v := by
  induction q with
  | nil => simp [qset, qlookup]
  | cons e r ih =>
      obtain ⟨k0, v0⟩ := e
      by_cases h : k0 = k
      · simp [qset, qlookup, h]
      · simp [qset, qlookup, h, ih]

theorem qlookup_qset_ne (q : Qnum) (k k' : StateId) (v : Square × Rat)
    (h : k' ≠ k) : qlookup (qset q k v) k' = qlookup q k' := by
  induction q with
  | nil => simp [qset, qlookup, Ne.symm h]
  | cons e r ih =>
      obtain ⟨k0, v0⟩ := e
      by_cases h0 : k0 = k
      · subst h0
        simp [qset, qlookup, Ne.symm h]
      · simp [qset, qlookup, h0, ih]

theorem qlookup_qdel_ne (q : Qnum) (k k' : StateId) (h : k' ≠ k) :
    qlookup (qdel q k) k' = qlookup q k' := by
  induction q with
  | nil => simp [qdel, qlookup]
  | cons e r ih =>
      obtain ⟨k0, v0⟩ := e
      by_cases h0 : k0 = k
      · subst h0
        simp [qdel, qlookup, Ne.symm h]
      · simp [qdel, qlookup, h0, ih]

theorem qlookup_eq_none_of_not_mem (q : Qnum) (k : StateId) (h : k ∉ qkeys q) :
    qlookup q k = none := by
  induction q with
  | nil => simp [qlookup]
  | cons e r ih =>
      obtain ⟨k0, v0⟩ := e
      simp only [qkeys, List.map_cons, List.mem_cons] at h
      push_neg at h
      simp [qlookup, Ne.symm h.1, ih (by simpa [qkeys] using h.2)]

theorem qlookup_qdel_self (q : Qnum) (k : StateId) (hnd : (qkeys q).Nodup) :
    qlookup (qdel q k) k = none := by
  induction q with
  | nil => simp [qdel, qlookup]
  | cons e r ih =>
      obtain ⟨k0, v0⟩ := e
      simp only [qkeys, List.map_cons, List.nodup_cons] at hnd
      by_cases h0 : k0 = k
      · subst h0
        simp only [qdel, if_pos rfl]
        exact qlookup_eq_none_of_not_mem r k0 (by simpa [qkeys] using hnd.1)
      · simp [qdel, qlookup, h0, ih (by simpa [qkeys] using hnd.2)]

theorem sumProbs_qset_fresh (q : Qnum) (k : StateId) (v : Square × Rat)
    (h : qlookup q k = none) : sumProbs (qset q k v) = sumProbs q + v.2 := by
  induction q with
  | nil => simp [qset, sumProbs]
  | cons e r ih =>
      obtain ⟨k0, v0⟩ := e
      by_cases h0 : k0 = k
      · simp [qlookup, h0] at h
      · simp only [qlookup, h0, if_false] at h
        simp only [qset, h0, if_false, sumProbs, ih h]
        ring

theorem sumProbs_qdel (q : Qnum) (k : StateId) (v : Square × Rat)
    (h : qlookup q k = some v) : sumProbs (qdel q k) = sumProbs q - v.2 := by
  induction q with
  | nil => simp [qlookup] at h
  | cons e r ih =>
      obtain ⟨k0, v0⟩ := e
      by_cases h0 : k0 = k
      · simp only [qlookup, h0, if_true] at h
        cases h
        simp only [qdel, h0, if_true, sumProbs]
        ring
      · simp only [qlookup, h0, if_false] at h
        simp only [qdel, h0, if_false, sumProbs, ih h]
        ring

theorem length_qset_fresh (q : Qnum) (k : StateId) (v : Square × Rat)
    (h : qlookup q k = none) : (qset q k v).length = q.length + 1 := by
  induction q with
  | nil => simp [qset]
  | cons e r ih =>
      obtain ⟨k0, v0⟩ := e
      by_cases h0 : k0 = k
      · simp [qlookup, h0] at h
      · simp only [qlookup, h0, if_false] at h
        simp [qset, h0, ih h]

theorem length_qdel (q : Qnum) (k : StateId) (v : Square × Rat)
    (h : qlookup q k = some v) : (qdel q k).length + 1 = q.length := by
  induction q with
  | nil => simp [qlookup] at h
  | cons e r ih =>
      obtain ⟨k0, v0⟩ := e
      by_cases h0 : k0 = k
      · simp [qdel, h0]
      · simp only [qlookup, h0, if_false] at h
        simp [qdel, h0, ih h]

theorem qlookup_filter (q : Qnum) (P : StateId → Bool) (k : StateId)
    (h : P k = true) :
    qlookup (q.filter (fun e => P e.1)) k = qlookup q k := by
  induction q with
  | nil => simp [qlookup]
  | cons e r ih =>
      obtain ⟨k0, v0⟩ := e
      by_cases h0 : k0 = k
      · subst h0
        simp [qlookup, List.filter_cons, h]
      · by_cases hp : P k0
        · simp [qlookup, List.filter_cons, hp, h0, ih]
        · simp [qlookup, List.filter_cons, hp, h0, ih]

theorem qlookup_map_scale (q : Qnum) (t : Rat) (k : StateId) :
    qlookup (q.map (fun e => (e.1, e.2.1, e.2.2 / t))) k
      = (qlookup q k).map (fun v => (v.1, v.2 / t)) := by
  induction q with
  | nil => simp [qlookup]
  | cons e r ih =>
      obtain ⟨k0, v0⟩ := e
      by_cases h0 : k0 = k
      · simp [qlookup, h0]
      · simp [qlookup, h0, ih]

theorem sumProbs_map_div (q : Qnum) (t : Rat) :
    sumProbs (q.map (fun e => (e.1, e.2.1, e.2.2 / t))) = sumProbs q / t := by
  induction q with
  | nil => simp [sumProbs]
  | cons e r ih => simp [sumProbs, ih, add_div]

theorem qkeys_filter (q : Qnum) (P : StateId → Bool) :
    qkeys (q.filter (fun e => P e.1)) = (qkeys q).filter P := by
  induction q with
  | nil => simp [qkeys]
  | cons e r ih =>
      simp only [qkeys] at ih ⊢
      by_cases hp : P e.1
      · simp [List.filter_cons, hp, ih]
      · simp [List.filter_cons, hp, ih]

/-! Basic facts about world reads and writes. -/

theorem getP_setP_self (w : World) (i : Nat) (p : QuantumPiece) (h : i < w.length) :
    getP (setP w i p) i = p := by
  induction w generalizing i with
  | nil => simp at h
  | cons a l ih =>
      cases i with
      | zero => simp [getP, setP]
      | succ n =>
          simp only [List.length_cons, Nat.succ_lt_succ_iff] at h
          simpa [getP, setP] using ih n h

theorem getP_setP_ne (w : World) (i j : Nat) (p : QuantumPiece) (h : j ≠ i) :
    getP (setP w i p) j = getP w j := by
  induction w generalizing i j with
  | nil => simp [getP, setP]
  | cons a l ih =>
      cases i with
      | zero =>
          cases j with
          | zero => exact absurd rfl h
          | succ m => simp [getP, setP]
      | succ n =>
          cases j with
          | zero => simp [getP, setP]
          | succ m =>
              simpa [getP, setP] using ih n m (fun he => h (by simp [he]))

theorem length_setP (w : World) (i : Nat) (p : QuantumPiece) :
    (setP w i p).length = w.length := by
  simp [setP]

/-! Facts about state-id strings. -/

theorem string_data_append (a b : String) : (a ++ b).data = a.data ++ b.data := by
  obtain ⟨da⟩ := a
  obtain ⟨db⟩ := b
  rfl

theorem string_append_ne_of_data_ne (a : String) {s t : String}
    (h : s.data ≠ t.data) : a ++ s ≠ a ++ t := by
  intro he
  exact h (List.append_cancel_left
    (by rw [← string_data_append, ← string_data_append, he]))

theorem string_ne_append_nonempty (a : String) {s : String} (h : s.data ≠ []) :
    a ≠ a ++ s := by
  intro he
  have hl : a.data.length = a.data.length + s.data.length := by
    conv_lhs => rw [he]
    rw [string_data_append, List.length_append]
  have : s.data.length = 0 := by omega
  exact h (List.length_eq_zero.mp this)

theorem qkeys_map_scale (q : Qnum) (t : Rat) :
    qkeys (q.map (fun e => (e.1, e.2.1, e.2.2 / t))) = qkeys q := by
  induction q with
  | nil => rfl
  | cons e r ih => simp [qkeys]

/-- Specialization of `qkeys_filter` to the prefix predicate of `detangle`. -/
theorem qkeys_filter_nonprefix (q : Qnum) (add : String) :
    qkeys (q.filter (fun e => !(idStartsWith add e.1)))
      = (qkeys q).filter (fun k => !(idStartsWith add k)) :=
  qkeys_filter q (fun k => !(idStartsWith add k))

/-- Specialization of `qlookup_filter` to the prefix predicate of `detangle`. -/
theorem qlookup_filter_nonprefix (q : Qnum) (add k : String)
    (h : idStartsWith add k = false) :
    qlookup (q.filter (fun e => !(idStartsWith add e.1))) k = qlookup q k :=
  qlookup_filter q (fun k => !(idStartsWith add k)) k (by simp [h])

theorem mem_qkeys_iff (q : Qnum) (k : StateId) :
    k ∈ qkeys q ↔ ∃ v, qlookup q k = some v := by
  induction q with
  | nil => simp [qkeys, qlookup]
  | cons e r ih =>
      obtain ⟨k0, v0⟩ := e
      by_cases h0 : k0 = k
      · subst h0
        simp [qkeys, qlookup]
      · simp [qkeys, qlookup, h0, Ne.symm h0] at ih ⊢
        exact ih

theorem qkeys_qset_fresh (q : Qnum) (k : StateId) (v : Square × Rat)
    (h : qlookup q k = none) : qkeys (qset q k v) = qkeys q ++ [k] := by
  induction q with
  | nil => simp [qset, qkeys]
  | cons e r ih =>
      obtain ⟨k0, v0⟩ := e
      by_cases h0 : k0 = k
      · simp [qlookup, h0] at h
      · simp only [qlookup, h0, if_false] at h
        simp [qset, qkeys, h0] at ih ⊢
        exact ih h

/-- Effect of the replace-one-branch-by-two pattern shared by `split`,
`entangle_oneblock` and the same-blocker case of `entangle_twoblock`: the dict
`qdel (qset (qset q k0 a) k1 b) iAdd` holds `a` at `k0` and `b` at `k1`, has
lost `iAdd`, leaves every other binding unchanged, grows by one entry and its
mass changes by `a.2 + b.2 - p`. -/
theorem qnum_replace2_spec (q : Qnum) (iAdd k0 k1 : StateId) (a b : Square × Rat)
    (sq : Square) (p : Rat)
    (hnd : (qkeys q).Nodup)
    (hne0 : iAdd ≠ k0) (hne1 : iAdd ≠ k1) (hne01 : k0 ≠ k1)
    (h : qlookup q iAdd = some (sq, p))
    (h0 : qlookup q k0 = none)
    (h1 : qlookup q k1 = none) :
    qlookup (qdel (qset (qset q k0 a) k1 b) iAdd) k0 = some a ∧
    qlookup (qdel (qset (qset q k0 a) k1 b) iAdd) k1 = some b ∧
    qlookup (qdel (qset (qset q k0 a) k1 b) iAdd) iAdd = none ∧
    (∀ k, k ≠ iAdd → k ≠ k0 → k ≠ k1 →
      qlookup (qdel (qset (qset q k0 a) k1 b) iAdd) k = qlookup q k) ∧
    (qdel (qset (qset q k0 a) k1 b) iAdd).length = q.length + 1 ∧
    sumProbs (qdel (qset (qset q k0 a) k1 b) iAdd) = sumProbs q - p + a.2 + b.2 := by
  have hf1 : qlookup (qset q k0 a) k1 = none := by
    rw [qlookup_qset_ne _ _ _ _ (Ne.symm hne01)]
    exact h1
  have hl2 : qlookup (qset (qset q k0 a) k1 b) iAdd = some (sq, p) := by
    rw [qlookup_qset_ne _ _ _ _ hne1, qlookup_qset_ne _ _ _ _ hne0]
    exact h
  refine ⟨?_, ?_, ?_, ?_, ?_, ?_⟩
  · rw [qlookup_qdel_ne _ _ _ (Ne.symm hne0), qlookup_qset_ne _ _ _ _ hne01,
      qlookup_qset_self]
  · rw [qlookup_qdel_ne _ _ _ (Ne.symm hne1), qlookup_qset_self]
  · have hm0 : k0 ∉ qkeys q := by
      rw [mem_qkeys_iff]
      simp [h0]
    have hm1 : k1 ∉ qkeys q := by
      rw [mem_qkeys_iff]
      simp [h1]
    apply qlookup_qdel_self
    rw [qkeys_qset_fresh _ _ _ hf1, qkeys_qset_fresh _ _ _ h0]
    simp [List.nodup_append, hnd, hm0, hm1, hne01]
  · intro k hk hk0 hk1
    rw [qlookup_qdel_ne _ _ _ hk, qlookup_qset_ne _ _ _ _ hk1, qlookup_qset_ne _ _ _ _ hk0]
  · have e1 := length_qdel _ _ _ hl2
    have e2 := length_qset_fresh (qset q k0 a) k1 b hf1
    have e3 := length_qset_fresh q k0 a h0
    omega
  · rw [sumProbs_qdel _ _ _ hl2, sumProbs_qset_fresh _ _ _ hf1, sumProbs_qset_fresh _ _ _ h0]
    ring

/-- Effect of the replace-one-branch-by-three pattern of the distinct-blockers
case of `entangle_twoblock`, analogous to `qnum_replace2_spec`. -/
theorem qnum_replace3_spec (q : Qnum) (iAdd k0 k1 k2 : StateId)
    (a b c : Square × Rat) (sq : Square) (p : Rat)
    (hnd : (qkeys q).Nodup)
    (hne0 : iAdd ≠ k0) (hne1 : iAdd ≠ k1) (hne2 : iAdd ≠ k2)
    (hne01 : k0 ≠ k1) (hne02 : k0 ≠ k2) (hne12 : k1 ≠ k2)
    (h : qlookup q iAdd = some (sq, p))
    (h0 : qlookup q k0 = none)
    (h1 : qlookup q k1 = none)
    (h2 : qlookup q k2 = none) :
    qlookup (qdel (qset (qset (qset q k0 a) k1 b) k2 c) iAdd) k0 = some a ∧
    qlookup (qdel (qset (qset (qset q k0 a) k1 b) k2 c) iAdd) k1 = some b ∧
    qlookup (qdel (qset (qset (qset q k0 a) k1 b) k2 c) iAdd) k2 = some c ∧
    qlookup (qdel (qset (qset (qset q k0 a) k1 b) k2 c) iAdd) iAdd = none ∧
    (∀ k, k ≠ iAdd → k ≠ k0 → k ≠ k1 → k ≠ k2 →
      qlookup (qdel (qset (qset (qset q k0 a) k1 b) k2 c) iAdd) k = qlookup q k) ∧
    (qdel (qset (qset (qset q k0 a) k1 b) k2 c) iAdd).length = q.length + 2 ∧
    sumProbs (qdel (qset (qset (qset q k0 a) k1 b) k2 c) iAdd)
      = sumProbs q - p + a.2 + b.2 + c.2 := by
  have hf1 : qlookup (qset q k0 a) k1 = none := by
    rw [qlookup_qset_ne _ _ _ _ (Ne.symm hne01)]
    exact h1
  have hf2 : qlookup (qset (qset q k0 a) k1 b) k2 = none := by
    rw [qlookup_qset_ne _ _ _ _ (Ne.symm hne12), qlookup_qset_ne _ _ _ _ (Ne.symm hne02)]
    exact h2
  have hl3 : qlookup (qset (qset (qset q k0 a) k1 b) k2 c) iAdd = some (sq, p) := by
    rw [qlookup_qset_ne _ _ _ _ hne2, qlookup_qset_ne _ _ _ _ hne1,
      qlookup_qset_ne _ _ _ _ hne0]
    exact h
  refine ⟨?_, ?_, ?_, ?_, ?_, ?_, ?_⟩
  · rw [qlookup_qdel_ne _ _ _ (Ne.symm hne0), qlookup_qset_ne _ _ _ _ hne02,
      qlookup_qset_ne _ _ _ _ hne01, qlookup_qset_self]
  · rw [qlookup_qdel_ne _ _ _ (Ne.symm hne1), qlookup_qset_ne _ _ _ _ hne12,
      qlookup_qset_self]
  · rw [qlookup_qdel_ne _ _ _ (Ne.symm hne2), qlookup_qset_self]
  · have hm0 : k0 ∉ qkeys q := by
      rw [mem_qkeys_iff]
      simp [h0]
    have hm1 : k1 ∉ qkeys q := by
      rw [mem_qkeys_iff]
      simp [h1]
    have hm2 : k2 ∉ qkeys q := by
      rw [mem_qkeys_iff]
      simp [h2]
    apply qlookup_qdel_self
    rw [qkeys_qset_fresh _ _ _ hf2, qkeys_qset_fresh _ _ _ hf1, qkeys_qset_fresh _ _ _ h0]
    simp [List.nodup_append, hnd, hm0, hm1, hm2, hne01, hne02, hne12]
  · intro k hk hk0 hk1 hk2
    rw [qlookup_qdel_ne _ _ _ hk, qlookup_qset_ne _ _ _ _ hk2,
      qlookup_qset_ne _ _ _ _ hk1, qlookup_qset_ne _ _ _ _ hk0]
  · have e1 := length_qdel _ _ _ hl3
    have e2 := length_qset_fresh (qset (qset q k0 a) k1 b) k2 c hf2
    have e3 := length_qset_fresh (qset q k0 a) k1 b hf1
    have e4 := length_qset_fresh q k0 a h0
    omega
  · rw [sumProbs_qdel _ _ _ hl3, sumProbs_qset_fresh _ _ _ hf2,
      sumProbs_qset_fresh _ _ _ hf1, sumProbs_qset_fresh _ _ _ h0]
    ring

/-- The two child ids appended by `split`/`entangle_oneblock` are distinct from
the parent id and from each other. -/
theorem child_ids_distinct (iAdd : StateId) :
    iAdd ≠ iAdd ++ "0" ∧ iAdd ≠ iAdd ++ "1" ∧ iAdd ++ "0" ≠ iAdd ++ "1" :=
  ⟨string_ne_append_nonempty iAdd (by decide),
   string_ne_append_nonempty iAdd (by decide),
   string_append_ne_of_data_ne iAdd (by decide)⟩

/-- The three child ids appended by the distinct-blockers case of
`entangle_twoblock` are distinct from the parent id and from each other. -/
theorem child3_ids_distinct (iAdd : StateId) :
    iAdd ≠ iAdd ++ "00" ∧ iAdd ≠ iAdd ++ "01" ∧ iAdd ≠ iAdd ++ "10" ∧
    iAdd ++ "00" ≠ iAdd ++ "01" ∧ iAdd ++ "00" ≠ iAdd ++ "10" ∧
    iAdd ++ "01" ≠ iAdd ++ "10" :=
  ⟨string_ne_append_nonempty iAdd (by decide),
   string_ne_append_nonempty iAdd (by decide),
   string_ne_append_nonempty iAdd (by decide),
   string_append_ne_of_data_ne iAdd (by decide),
   string_append_ne_of_data_ne iAdd (by decide),
   string_append_ne_of_data_ne iAdd (by decide)⟩

/-- C7: on a `qnum` with well-formed (distinct) keys holding `stateId ↦ (sq, p)`
and not yet holding the two child ids, `split(stateId, A, B)` removes the
`stateId` entry and inserts exactly the two entries `stateId+"0" ↦ (A, p/2)`
and `stateId+"1" ↦ (B, p/2)`; every other entry is unchanged and the dict grows
by exactly one entry. -/
theorem split_spec (self : QuantumPiece) (iAdd : StateId) (pos1 pos2 : Square)
    (sq : Square) (p : Rat)
    (hnd : (qkeys self.qnum).Nodup)
    (hpos : pos1 ≠ pos2)
    (h : qlookup self.qnum iAdd = some (sq, p))
    (h0 : qlookup self.qnum (iAdd ++ "0") = none)
    (h1 : qlookup self.qnum (iAdd ++ "1") = none) :
    ∃ q', self.split iAdd pos1 pos2 = some { self with qnum := q' } ∧
      qlookup q' (iAdd ++ "0") = some (pos1, p / 2) ∧
      qlookup q' (iAdd ++ "1") = some (pos2, p / 2) ∧
      qlookup q' iAdd = none ∧
      (∀ k, k ≠ iAdd → k ≠ iAdd ++ "0" → k ≠ iAdd ++ "1" →
        qlookup q' k = qlookup self.qnum k) ∧
      q'.length = self.qnum.length + 1 := by
  obtain ⟨hneA0, hneA1, hne01⟩ := child_ids_distinct iAdd
  obtain ⟨c1, c2, c3, c4, c5, -⟩ := qnum_replace2_spec self.qnum iAdd
    (iAdd ++ "0") (iAdd ++ "1") (pos1, p / 2) (pos2, p / 2) sq p
    hnd hneA0 hneA1 hne01 h h0 h1
  exact ⟨_, by simp only [QuantumPiece.split, h], c1, c2, c3, c4, c5⟩

/-- C7 witness: the spec's example — `split("0", "e4", "e5")` on a fresh piece
of probability 1 at e2 yields exactly the entries `"00" ↦ (e4, 1/2)` and
`"01" ↦ (e5, 1/2)`, and `"0"` is gone. -/
theorem split_spec_witness :
    ∃ q', (QuantumPiece.init "e2" "P").split "0" "e4" "e5"
        = some { QuantumPiece.init "e2" "P" with qnum := q' } ∧
      qlookup q' ( "0" ++ "0") = some ( "e4", 1 / 2) ∧
      qlookup q' ( "0" ++ "1") = some ( "e5", 1 / 2) ∧
      qlookup q' "0" = none ∧
      (∀ k, k ≠ "0" → k ≠ "0" ++ "0" → k ≠ "0" ++ "1" →
        qlookup q' k = qlookup (QuantumPiece.init "e2" "P").qnum k) ∧
      q'.length = (QuantumPiece.init "e2" "P").qnum.length + 1 :=
  split_spec (QuantumPiece.init "e2" "P") "0" "e4" "e5" "e2" 1
    (by decide) (by decide) rfl rfl rfl

/-- C8 counterexample: a piece carrying a probability-0 branch `"0"` (as
`entangle_oneblock` produces whenever the blocker's branch has probability 1)
together with the branch `"1"` of probability 1. The entry `"0"` does not have
`"1"` as a prefix, so the claim applies, and claims the survivors are
renormalized to total 1 — but `detangle("1")` leaves the single survivor at
probability 0 (total 0, not 1), because the source skips normalization when the
surviving mass is not positive. -/
theorem detangle_cex :
    ((⟨ "p", [( "0", ( "e4", 0)), ( "1", ( "e5", 1))], []⟩ : QuantumPiece).detangle "1").qnum
        = [( "0", ( "e4", 0))] ∧
      sumProbs (((⟨ "p", [( "0", ( "e4", 0)), ( "1", ( "e5", 1))], []⟩ :
          QuantumPiece).detangle "1").qnum) ≠ 1 ∧
      idStartsWith "1" "0" = false := by
  refine ⟨?_, ?_, by decide⟩ <;>
    simp +decide [QuantumPiece.detangle, sumProbs, idStartsWith]

/-- C8 (amended): when the surviving branches carry positive total probability
`T`, `detangle(stateId, partner)` removes exactly the entries whose id has
`stateId` as a prefix, divides every surviving entry by `T`, and the surviving
probabilities then sum to exactly 1. -/
theorem detangle_spec (self : QuantumPiece) (add : StateId)
    (h : 0 < sumProbs (self.qnum.filter (fun e => !(idStartsWith add e.1)))) :
    qkeys (self.detangle add).qnum
        = (qkeys self.qnum).filter (fun k => !(idStartsWith add k)) ∧
      (∀ k v, qlookup self.qnum k = some v → idStartsWith add k = false →
        qlookup (self.detangle add).qnum k = some (v.1,
          v.2 / sumProbs (self.qnum.filter (fun e => !(idStartsWith add e.1))))) ∧
      sumProbs (self.detangle add).qnum = 1 := by
  refine ⟨?_, ?_, ?_⟩
  · simp only [QuantumPiece.detangle, if_pos h]
    rw [qkeys_map_scale, qkeys_filter_nonprefix]
  · intro k v hk hpre
    simp only [QuantumPiece.detangle, if_pos h]
    rw [qlookup_map_scale, qlookup_filter_nonprefix _ _ _ hpre, hk]
    rfl
  · simp only [QuantumPiece.detangle, if_pos h]
    rw [sumProbs_map_div]
    exact div_self (ne_of_gt h)

/-- C8 witness: the spec's example — branches `{p1: 3/10, p2: 3/10, p3: 4/10}`;
detangling p1's subtree leaves survivors of total 1 (p2 at 3/7, p3 at 4/7). -/
theorem detangle_spec_witness :
    (0 : Rat) < sumProbs (([( "00", ( "p1", 3/10)), ( "01", ( "p2", 3/10)),
        ( "1", ( "p3", 4/10))] : Qnum).filter (fun e => !(idStartsWith "00" e.1))) ∧
      sumProbs (((⟨ "Q", [( "00", ( "p1", 3/10)), ( "01", ( "p2", 3/10)),
        ( "1", ( "p3", 4/10))], []⟩ : QuantumPiece).detangle "00").qnum) = 1 ∧
      qlookup (((⟨ "Q", [( "00", ( "p1", 3/10)), ( "01", ( "p2", 3/10)),
        ( "1", ( "p3", 4/10))], []⟩ : QuantumPiece).detangle "00").qnum) "01"
          = some ( "p2", (3/10) / sumProbs (([( "00", ( "p1", 3/10)),
            ( "01", ( "p2", 3/10)), ( "1", ( "p3", 4/10))] : Qnum).filter
              (fun e => !(idStartsWith "00" e.1)))) := by
  have h : (0 : Rat) < sumProbs (([( "00", ( "p1", 3/10)), ( "01", ( "p2", 3/10)),
      ( "1", ( "p3", 4/10))] : Qnum).filter (fun e => !(idStartsWith "00" e.1))) := by
    simp +decide [sumProbs, idStartsWith]
    norm_num
  refine ⟨h, (detangle_spec _ "00" h).2.2, ?_⟩
  exact (detangle_spec _ "00" h).2.1 "01" ( "p2", 3/10) rfl (by decide)

/-- C10: when the surviving branches carry zero total probability (in
particular when every branch matches the prefix and nothing survives),
`detangle` skips renormalization entirely — no division happens and the
survivors keep their pre-normalization probabilities. -/
theorem detangle_zero_total (self : QuantumPiece) (add : StateId)
    (h : sumProbs (self.qnum.filter (fun e => !(idStartsWith add e.1))) = 0) :
    (self.detangle add).qnum = self.qnum.filter (fun e => !(idStartsWith add e.1)) := by
  simp [QuantumPiece.detangle, h]

/-- C10 witness: detangling the whole tree (`add = "0"`, which is a prefix of
every state id) of a fresh piece empties the `qnum` without any division. -/
theorem detangle_zero_total_witness :
    sumProbs ((QuantumPiece.init "e4" "N").qnum.filter
        (fun e => !(idStartsWith "0" e.1))) = 0 ∧
      ((QuantumPiece.init "e4" "N").detangle "0").qnum
        = (QuantumPiece.init "e4" "N").qnum.filter (fun e => !(idStartsWith "0" e.1)) :=
  ⟨by simp +decide [QuantumPiece.init, sumProbs, idStartsWith],
   detangle_zero_total (QuantumPiece.init "e4" "N") "0"
     (by simp +decide [QuantumPiece.init, sumProbs, idStartsWith])⟩

/-- C1: evaluation of the code at the failing input. In an environment without
Qiskit (the guard at quant.py lines 210–212), `measure()` returns
`_classical_measure()`. On the superposed piece with branches
`"00" ↦ (e4, 1/2)` and `"01" ↦ (e5, 1/2)` and a non-empty entanglement list,
with `random.random()` returning 3/10, the call returns `("e4", 1/2)` — the
*stored* probability, not 1.0 — and the piece is returned with its
ProbabilityState and entanglement list completely unchanged: nothing collapses,
contradicting the claimed post-state of `measure()`. -/
theorem classical_measure_no_collapse :
    QuantumPiece.classical_measure
        ⟨ "P", [( "00", ( "e4", 1/2)), ( "01", ( "e5", 1/2))], [(1, "01", "00")]⟩ (3/10)
      = some (( "e4", 1/2),
          ⟨ "P", [( "00", ( "e4", 1/2)), ( "01", ( "e5", 1/2))], [(1, "01", "00")]⟩) ∧
      ((1 : Rat)/2 = 1 → False) := by
  constructor
  · simp +decide [QuantumPiece.classical_measure, QuantumPiece.pickState, sumProbs]
    norm_num
  · intro h
    norm_num at h

/-- C5: `entangle_oneblock` replaces the mover's branch `i_add` (probability x)
by exactly two branches — the blocked branch `i_add+"0"` at the mover's current
square with probability x·y and the moved branch `i_add+"1"` at the target with
probability x·(1−y) — leaving every other branch untouched, and appends exactly
2 entanglement tuples on the mover and exactly 2 on the blocker, each pairing
one mover branch with the complementary blocker branch (`obj_add` and its
sibling `lastState`). The blocker's `qnum` is unchanged. -/
theorem entangle_oneblock_spec (w : World) (selfI objI : Nat) (iAdd : StateId)
    (pos1 : Square) (objAdd : StateId) (selfPos objPos : Square) (x y : Rat)
    (lastState : StateId)
    (hlenS : selfI < w.length) (hlenO : objI < w.length) (hne : selfI ≠ objI)
    (hx : qlookup (getP w selfI).qnum iAdd = some (selfPos, x))
    (hy : qlookup (getP w objI).qnum objAdd = some (objPos, y))
    (hflip : flipLast objAdd = some lastState)
    (hnd : (qkeys (getP w selfI).qnum).Nodup)
    (h0 : qlookup (getP w selfI).qnum (iAdd ++ "0") = none)
    (h1 : qlookup (getP w selfI).qnum (iAdd ++ "1") = none) :
    ∃ w', QuantumPiece.entangle_oneblock w selfI iAdd pos1 objI objAdd = some w' ∧
      qlookup (getP w' selfI).qnum (iAdd ++ "0") = some (selfPos, x * y) ∧
      qlookup (getP w' selfI).qnum (iAdd ++ "1") = some (pos1, x * (1 - y)) ∧
      qlookup (getP w' selfI).qnum iAdd = none ∧
      (∀ k, k ≠ iAdd → k ≠ iAdd ++ "0" → k ≠ iAdd ++ "1" →
        qlookup (getP w' selfI).qnum k = qlookup (getP w selfI).qnum k) ∧
      (getP w' selfI).qnum.length = (getP w selfI).qnum.length + 1 ∧
      (getP w' selfI).ent = (getP w selfI).ent
        ++ [(objI, objAdd, iAdd ++ "1"), (objI, lastState, iAdd ++ "0")] ∧
      (getP w' objI).ent = (getP w objI).ent
        ++ [(selfI, iAdd ++ "1", objAdd), (selfI, iAdd ++ "0", lastState)] ∧
      (getP w' objI).qnum = (getP w objI).qnum := by
  obtain ⟨hneA0, hneA1, hne01⟩ := child_ids_distinct iAdd
  obtain ⟨c1, c2, c3, c4, c5, -⟩ := qnum_replace2_spec (getP w selfI).qnum iAdd
    (iAdd ++ "0") (iAdd ++ "1") (selfPos, x * y) (pos1, x * (1 - y)) selfPos x
    hnd hneA0 hneA1 hne01 hx h0 h1
  simp only [QuantumPiece.entangle_oneblock, hx, hy, hflip]
  refine ⟨_, rfl, ?_, ?_, ?_, ?_, ?_, ?_, ?_, ?_⟩
  · rw [getP_setP_self, getP_setP_ne _ _ _ _ hne, getP_setP_self]
    · exact c1
    · exact hlenS
    · simp only [length_setP]
      exact hlenS
  · rw [getP_setP_self, getP_setP_ne _ _ _ _ hne, getP_setP_self]
    · exact c2
    · exact hlenS
    · simp only [length_setP]
      exact hlenS
  · rw [getP_setP_self, getP_setP_ne _ _ _ _ hne, getP_setP_self]
    · exact c3
    · exact hlenS
    · simp only [length_setP]
      exact hlenS
  · intro k hk hk0 hk1
    rw [getP_setP_self, getP_setP_ne _ _ _ _ hne, getP_setP_self]
    · exact c4 k hk hk0 hk1
    · exact hlenS
    · simp only [length_setP]
      exact hlenS
  · rw [getP_setP_self, getP_setP_ne _ _ _ _ hne, getP_setP_self]
    · exact c5
    · exact hlenS
    · simp only [length_setP]
      exact hlenS
  · rw [getP_setP_self, getP_setP_ne _ _ _ _ hne, getP_setP_self]
    · exact hlenS
    · simp only [length_setP]
      exact hlenS
  · rw [getP_setP_ne _ _ _ _ (Ne.symm hne), getP_setP_self,
      getP_setP_ne _ _ _ _ (Ne.symm hne)]
    simp only [length_setP]
    exact hlenO
  · rw [getP_setP_ne _ _ _ _ (Ne.symm hne), getP_setP_self,
      getP_setP_ne _ _ _ _ (Ne.symm hne)]
    simp only [length_setP]
    exact hlenO

/-- C5 witness: the spec's example — mover branch probability x = 1, blocker
branch probability y = 1/2. The two produced branches carry x·y = 1/2 and
x·(1−y) = 1/2, and exactly two entanglement tuples appear on each side. -/
theorem entangle_oneblock_spec_witness :
    ∃ w', QuantumPiece.entangle_oneblock
        [⟨ "R", [( "0", ( "a4", 1))], []⟩,
         ⟨ "p", [( "00", ( "d4", 1/2)), ( "01", ( "d5", 1/2))], []⟩]
        0 "0" "e4" 1 "00" = some w' ∧
      qlookup (getP w' 0).qnum ( "0" ++ "0") = some ( "a4", 1 * (1/2)) ∧
      qlookup (getP w' 0).qnum ( "0" ++ "1") = some ( "e4", 1 * (1 - 1/2)) ∧
      qlookup (getP w' 0).qnum "0" = none ∧
      (∀ k, k ≠ "0" → k ≠ "0" ++ "0" → k ≠ "0" ++ "1" →
        qlookup (getP w' 0).qnum k
          = qlookup (getP [⟨ "R", [( "0", ( "a4", 1))], []⟩,
              ⟨ "p", [( "00", ( "d4", 1/2)), ( "01", ( "d5", 1/2))], []⟩] 0).qnum k) ∧
      (getP w' 0).qnum.length
        = (getP [⟨ "R", [( "0", ( "a4", 1))], []⟩,
            ⟨ "p", [( "00", ( "d4", 1/2)), ( "01", ( "d5", 1/2))], []⟩] 0).qnum.length + 1 ∧
      (getP w' 0).ent
        = (getP [⟨ "R", [( "0", ( "a4", 1))], []⟩,
            ⟨ "p", [( "00", ( "d4", 1/2)), ( "01", ( "d5", 1/2))], []⟩] 0).ent
          ++ [(1, "00", "0" ++ "1"), (1, "01", "0" ++ "0")] ∧
      (getP w' 1).ent
        = (getP [⟨ "R", [( "0", ( "a4", 1))], []⟩,
            ⟨ "p", [( "00", ( "d4", 1/2)), ( "01", ( "d5", 1/2))], []⟩] 1).ent
          ++ [(0, "0" ++ "1", "00"), (0, "0" ++ "0", "01")] ∧
      (getP w' 1).qnum
        = (getP [⟨ "R", [( "0", ( "a4", 1))], []⟩,
            ⟨ "p", [( "00", ( "d4", 1/2)), ( "01", ( "d5", 1/2))], []⟩] 1).qnum :=
  entangle_oneblock_spec
    [⟨ "R", [( "0", ( "a4", 1))], []⟩,
     ⟨ "p", [( "00", ( "d4", 1/2)), ( "01", ( "d5", 1/2))], []⟩]
    0 1 "0" "e4" "00" "a4" "d4" 1 (1/2) "01"
    (by decide) (by decide) (by decide) rfl rfl (by decide) (by decide) rfl rfl

/-- C6: the branch probabilities produced by `entangle_twoblock`. When both
blocking states belong to the same piece (equal references), the mover's branch
becomes exactly two branches, P(A) = x·y2 + ½·x·(1−y1−y2) at `pos1` and the
symmetric P(B) = x·y1 + ½·x·(1−y1−y2) at `pos2`. With two distinct blocking
pieces it becomes exactly three branches: unmoved (the mover's current square)
with x·y1·y2, moved-to-A with x·(1−y1)·y2 + ½·x·(1−y1)·(1−y2), and moved-to-B
with x·y1·(1−y2) + ½·x·(1−y1)·(1−y2); in both cases the original branch `i_add`
is removed and every other branch is untouched. -/
theorem entangle_twoblock_spec (w : World) (selfI obj1I obj2I : Nat)
    (iAdd : StateId) (pos1 pos2 : Square) (obj1Add obj2Add : StateId)
    (selfPos b1Pos b2Pos : Square) (x y1 y2 : Rat) (last1 last2 : StateId)
    (hlenS : selfI < w.length)
    (hneS1 : selfI ≠ obj1I) (hneS2 : selfI ≠ obj2I)
    (hx : qlookup (getP w selfI).qnum iAdd = some (selfPos, x))
    (hy1 : qlookup (getP w obj1I).qnum obj1Add = some (b1Pos, y1))
    (hy2 : qlookup (getP w obj2I).qnum obj2Add = some (b2Pos, y2))
    (hf1 : flipLast obj1Add = some last1)
    (hf2 : flipLast obj2Add = some last2)
    (hnd : (qkeys (getP w selfI).qnum).Nodup)
    (h0 : qlookup (getP w selfI).qnum (iAdd ++ "0") = none)
    (h1 : qlookup (getP w selfI).qnum (iAdd ++ "1") = none)
    (h00 : qlookup (getP w selfI).qnum (iAdd ++ "00") = none)
    (h01 : qlookup (getP w selfI).qnum (iAdd ++ "01") = none)
    (h10 : qlookup (getP w selfI).qnum (iAdd ++ "10") = none) :
    (obj1I = obj2I →
      ∃ w', QuantumPiece.entangle_twoblock w selfI iAdd pos1 pos2
          obj1I obj1Add obj2I obj2Add = some w' ∧
        qlookup (getP w' selfI).qnum (iAdd ++ "0")
          = some (pos1, x * y2 + 1 / 2 * x * (1 - y1 - y2)) ∧
        qlookup (getP w' selfI).qnum (iAdd ++ "1")
          = some (pos2, x * y1 + 1 / 2 * x * (1 - y1 - y2)) ∧
        qlookup (getP w' selfI).qnum iAdd = none ∧
        (∀ k, k ≠ iAdd → k ≠ iAdd ++ "0" → k ≠ iAdd ++ "1" →
          qlookup (getP w' selfI).qnum k = qlookup (getP w selfI).qnum k) ∧
        (getP w' selfI).qnum.length = (getP w selfI).qnum.length + 1) ∧
    (obj1I ≠ obj2I →
      ∃ w', QuantumPiece.entangle_twoblock w selfI iAdd pos1 pos2
          obj1I obj1Add obj2I obj2Add = some w' ∧
        qlookup (getP w' selfI).qnum (iAdd ++ "00") = some (selfPos, x * y1 * y2) ∧
        qlookup (getP w' selfI).qnum (iAdd ++ "01")
          = some (pos1, x * (1 - y1) * y2 + 1 / 2 * x * (1 - y1) * (1 - y2)) ∧
        qlookup (getP w' selfI).qnum (iAdd ++ "10")
          = some (pos2, x * y1 * (1 - y2) + 1 / 2 * x * (1 - y1) * (1 - y2)) ∧
        qlookup (getP w' selfI).qnum iAdd = none ∧
        (∀ k, k ≠ iAdd → k ≠ iAdd ++ "00" → k ≠ iAdd ++ "01" → k ≠ iAdd ++ "10" →
          qlookup (getP w' selfI).qnum k = qlookup (getP w selfI).qnum k) ∧
        (getP w' selfI).qnum.length = (getP w selfI).qnum.length + 2) := by
  constructor
  · intro heq
    subst heq
    obtain ⟨hneA0, hneA1, hne01⟩ := child_ids_distinct iAdd
    obtain ⟨c1, c2, c3, c4, c5, -⟩ := qnum_replace2_spec (getP w selfI).qnum iAdd
      (iAdd ++ "0") (iAdd ++ "1")
      (pos1, x * y2 + 1 / 2 * x * (1 - y1 - y2))
      (pos2, x * y1 + 1 / 2 * x * (1 - y1 - y2)) selfPos x
      hnd hneA0 hneA1 hne01 hx h0 h1
    simp only [QuantumPiece.entangle_twoblock, hx, hy1, hy2, hf1, hf2,
      eq_self_iff_true, if_true]
    refine ⟨_, rfl, ?_, ?_, ?_, ?_, ?_⟩
    · rw [getP_setP_self, getP_setP_ne _ _ _ _ hneS1, getP_setP_ne _ _ _ _ hneS1,
        getP_setP_self]
      · exact c1
      · exact hlenS
      · simp only [length_setP]
        exact hlenS
    · rw [getP_setP_self, getP_setP_ne _ _ _ _ hneS1, getP_setP_ne _ _ _ _ hneS1,
        getP_setP_self]
      · exact c2
      · exact hlenS
      · simp only [length_setP]
        exact hlenS
    · rw [getP_setP_self, getP_setP_ne _ _ _ _ hneS1, getP_setP_ne _ _ _ _ hneS1,
        getP_setP_self]
      · exact c3
      · exact hlenS
      · simp only [length_setP]
        exact hlenS
    · intro k hk hk0 hk1
      rw [getP_setP_self, getP_setP_ne _ _ _ _ hneS1, getP_setP_ne _ _ _ _ hneS1,
        getP_setP_self]
      · exact c4 k hk hk0 hk1
      · exact hlenS
      · simp only [length_setP]
        exact hlenS
    · rw [getP_setP_self, getP_setP_ne _ _ _ _ hneS1, getP_setP_ne _ _ _ _ hneS1,
        getP_setP_self]
      · exact c5
      · exact hlenS
      · simp only [length_setP]
        exact hlenS
  · intro hne12
    obtain ⟨hneA00, hneA01, hneA10, hne0001, hne0010, hne0110⟩ := child3_ids_distinct iAdd
    obtain ⟨c1, c2, c3, c4, c5, c6, -⟩ := qnum_replace3_spec (getP w selfI).qnum iAdd
      (iAdd ++ "00") (iAdd ++ "01") (iAdd ++ "10")
      (selfPos, x * y1 * y2)
      (pos1, x * (1 - y1) * y2 + 1 / 2 * x * (1 - y1) * (1 - y2))
      (pos2, x * y1 * (1 - y2) + 1 / 2 * x * (1 - y1) * (1 - y2)) selfPos x
      hnd hneA00 hneA01 hneA10 hne0001 hne0010 hne0110 hx h00 h01 h10
    simp only [QuantumPiece.entangle_twoblock, hx, hy1, hy2, hf1, hf2, if_neg hne12]
    refine ⟨_, rfl, ?_, ?_, ?_, ?_, ?_, ?_⟩
    · rw [getP_setP_self, getP_setP_ne _ _ _ _ hneS2, getP_setP_ne _ _ _ _ hneS1,
        getP_setP_self]
      · exact c1
      · exact hlenS
      · simp only [length_setP]
        exact hlenS
    · rw [getP_setP_self, getP_setP_ne _ _ _ _ hneS2, getP_setP_ne _ _ _ _ hneS1,
        getP_setP_self]
      · exact c2
      · exact hlenS
      · simp only [length_setP]
        exact hlenS
    · rw [getP_setP_self, getP_setP_ne _ _ _ _ hneS2, getP_setP_ne _ _ _ _ hneS1,
        getP_setP_self]
      · exact c3
      · exact hlenS
      · simp only [length_setP]
        exact hlenS
    · rw [getP_setP_self, getP_setP_ne _ _ _ _ hneS2, getP_setP_ne _ _ _ _ hneS1,
        getP_setP_self]
      · exact c4
      · exact hlenS
      · simp only [length_setP]
        exact hlenS
    · intro k hk hk0 hk1 hk2
      rw [getP_setP_self, getP_setP_ne _ _ _ _ hneS2, getP_setP_ne _ _ _ _ hneS1,
        getP_setP_self]
      · exact c5 k hk hk0 hk1 hk2
      · exact hlenS
      · simp only [length_setP]
        exact hlenS
    · rw [getP_setP_self, getP_setP_ne _ _ _ _ hneS2, getP_setP_ne _ _ _ _ hneS1,
        getP_setP_self]
      · exact c6
      · exact hlenS
      · simp only [length_setP]
        exact hlenS

/-- C6 witness: a mover (x = 1) entangled through two branches of two distinct
blocker pieces (y1 = 1/2, y2 = 2/3): three branches with the
inclusion-exclusion probabilities appear, the parent branch is gone. -/
theorem entangle_twoblock_spec_witness :
    ((1 : Nat) = 2 →
      ∃ w', QuantumPiece.entangle_twoblock
          [⟨ "Q", [( "0", ( "a1", 1))], []⟩,
           ⟨ "p", [( "00", ( "b1", 1/2)), ( "01", ( "b2", 1/2))], []⟩,
           ⟨ "n", [( "00", ( "c1", 1/3)), ( "01", ( "c2", 2/3))], []⟩]
          0 "0" "x1" "x2" 1 "00" 2 "01" = some w' ∧
        qlookup (getP w' 0).qnum ( "0" ++ "0")
          = some ( "x1", 1 * (2/3) + 1 / 2 * 1 * (1 - 1/2 - 2/3)) ∧
        qlookup (getP w' 0).qnum ( "0" ++ "1")
          = some ( "x2", 1 * (1/2) + 1 / 2 * 1 * (1 - 1/2 - 2/3)) ∧
        qlookup (getP w' 0).qnum "0" = none ∧
        (∀ k, k ≠ "0" → k ≠ "0" ++ "0" → k ≠ "0" ++ "1" →
          qlookup (getP w' 0).qnum k
            = qlookup (getP [⟨ "Q", [( "0", ( "a1", 1))], []⟩,
                ⟨ "p", [( "00", ( "b1", 1/2)), ( "01", ( "b2", 1/2))], []⟩,
                ⟨ "n", [( "00", ( "c1", 1/3)), ( "01", ( "c2", 2/3))], []⟩] 0).qnum k) ∧
        (getP w' 0).qnum.length
          = (getP [⟨ "Q", [( "0", ( "a1", 1))], []⟩,
              ⟨ "p", [( "00", ( "b1", 1/2)), ( "01", ( "b2", 1/2))], []⟩,
              ⟨ "n", [( "00", ( "c1", 1/3)), ( "01", ( "c2", 2/3))], []⟩] 0).qnum.length + 1) ∧
    ((1 : Nat) ≠ 2 →
      ∃ w', QuantumPiece.entangle_twoblock
          [⟨ "Q", [( "0", ( "a1", 1))], []⟩,
           ⟨ "p", [( "00", ( "b1", 1/2)), ( "01", ( "b2", 1/2))], []⟩,
           ⟨ "n", [( "00", ( "c1", 1/3)), ( "01", ( "c2", 2/3))], []⟩]
          0 "0" "x1" "x2" 1 "00" 2 "01" = some w' ∧
        qlookup (getP w' 0).qnum ( "0" ++ "00") = some ( "a1", 1 * (1/2) * (2/3)) ∧
        qlookup (getP w' 0).qnum ( "0" ++ "01")
          = some ( "x1", 1 * (1 - 1/2) * (2/3) + 1 / 2 * 1 * (1 - 1/2) * (1 - 2/3)) ∧
        qlookup (getP w' 0).qnum ( "0" ++ "10")
          = some ( "x2", 1 * (1/2) * (1 - 2/3) + 1 / 2 * 1 * (1 - 1/2) * (1 - 2/3)) ∧
        qlookup (getP w' 0).qnum "0" = none ∧
        (∀ k, k ≠ "0" → k ≠ "0" ++ "00" → k ≠ "0" ++ "01" → k ≠ "0" ++ "10" →
          qlookup (getP w' 0).qnum k
            = qlookup (getP [⟨ "Q", [( "0", ( "a1", 1))], []⟩,
                ⟨ "p", [( "00", ( "b1", 1/2)), ( "01", ( "b2", 1/2))], []⟩,
                ⟨ "n", [( "00", ( "c1", 1/3)), ( "01", ( "c2", 2/3))], []⟩] 0).qnum k) ∧
        (getP w' 0).qnum.length
          = (getP [⟨ "Q", [( "0", ( "a1", 1))], []⟩,
              ⟨ "p", [( "00", ( "b1", 1/2)), ( "01", ( "b2", 1/2))], []⟩,
              ⟨ "n", [( "00", ( "c1", 1/3)), ( "01", ( "c2", 2/3))], []⟩] 0).qnum.length + 2) :=
  entangle_twoblock_spec
    [⟨ "Q", [( "0", ( "a1", 1))], []⟩,
     ⟨ "p", [( "00", ( "b1", 1/2)), ( "01", ( "b2", 1/2))], []⟩,
     ⟨ "n", [( "00", ( "c1", 1/3)), ( "01", ( "c2", 2/3))], []⟩]
    0 1 2 "0" "x1" "x2" "00" "01" "a1" "b1" "c2" 1 (1/2) (2/3) "01" "00"
    (by decide) (by decide) (by decide) rfl rfl rfl (by decide) (by decide)
    (by decide) rfl rfl rfl rfl rfl

/-- Pure sum bookkeeping of the replace-branch-by-two pattern (no
well-formedness needed): deleting the parent (mass p) and appending two fresh
children changes the mass by `a.2 + b.2 - p`. -/
theorem sumProbs_replace2 (q : Qnum) (iAdd k0 k1 : StateId) (a b : Square × Rat)
    (sq : Square) (p : Rat)
    (hne0 : iAdd ≠ k0) (hne1 : iAdd ≠ k1) (hne01 : k0 ≠ k1)
    (h : qlookup q iAdd = some (sq, p))
    (h0 : qlookup q k0 = none) (h1 : qlookup q k1 = none) :
    sumProbs (qdel (qset (qset q k0 a) k1 b) iAdd) = sumProbs q - p + a.2 + b.2 := by
  have hf1 : qlookup (qset q k0 a) k1 = none := by
    rw [qlookup_qset_ne _ _ _ _ (Ne.symm hne01)]
    exact h1
  have hl2 : qlookup (qset (qset q k0 a) k1 b) iAdd = some (sq, p) := by
    rw [qlookup_qset_ne _ _ _ _ hne1, qlookup_qset_ne _ _ _ _ hne0]
    exact h
  rw [sumProbs_qdel _ _ _ hl2, sumProbs_qset_fresh _ _ _ hf1, sumProbs_qset_fresh _ _ _ h0]
  ring

/-- Pure sum bookkeeping of the replace-branch-by-three pattern. -/
theorem sumProbs_replace3 (q : Qnum) (iAdd k0 k1 k2 : StateId)
    (a b c : Square × Rat) (sq : Square) (p : Rat)
    (hne0 : iAdd ≠ k0) (hne1 : iAdd ≠ k1) (hne2 : iAdd ≠ k2)
    (hne01 : k0 ≠ k1) (hne02 : k0 ≠ k2) (hne12 : k1 ≠ k2)
    (h : qlookup q iAdd = some (sq, p))
    (h0 : qlookup q k0 = none) (h1 : qlookup q k1 = none) (h2 : qlookup q k2 = none) :
    sumProbs (qdel (qset (qset (qset q k0 a) k1 b) k2 c) iAdd)
      = sumProbs q - p + a.2 + b.2 + c.2 := by
  have hf1 : qlookup (qset q k0 a) k1 = none := by
    rw [qlookup_qset_ne _ _ _ _ (Ne.symm hne01)]
    exact h1
  have hf2 : qlookup (qset (qset q k0 a) k1 b) k2 = none := by
    rw [qlookup_qset_ne _ _ _ _ (Ne.symm hne12), qlookup_qset_ne _ _ _ _ (Ne.symm hne02)]
    exact h2
  have hl3 : qlookup (qset (qset (qset q k0 a) k1 b) k2 c) iAdd = some (sq, p) := by
    rw [qlookup_qset_ne _ _ _ _ hne2, qlookup_qset_ne _ _ _ _ hne1,
      qlookup_qset_ne _ _ _ _ hne0]
    exact h
  rw [sumProbs_qdel _ _ _ hl3, sumProbs_qset_fresh _ _ _ hf2,
    sumProbs_qset_fresh _ _ _ hf1, sumProbs_qset_fresh _ _ _ h0]
  ring

theorem getP_eq_default (w : World) (i : Nat) (h : w.length ≤ i) :
    getP w i = default := by
  have hn : w.get? i = none := List.get?_eq_none.mpr h
  rw [getP, hn]
  rfl

theorem lt_length_of_qlookup_some (w : World) (j : Nat) (a : StateId)
    (v : Square × Rat) (h : qlookup (getP w j).qnum a = some v) : j < w.length := by
  by_contra hge
  push_neg at hge
  rw [getP_eq_default w j hge] at h
  have hd : (default : QuantumPiece).qnum = [] := rfl
  rw [hd] at h
  simp [qlookup] at h

/-- Writing back a piece whose `qnum` is unchanged (only `ent` differs) leaves
every piece's `qnum` unchanged, at every index. -/
theorem getP_qnum_entSet (w : World) (o : Nat)
    (e : List (Nat × StateId × StateId)) (i : Nat) :
    (getP (setP w o { getP w o with ent := e }) i).qnum = (getP w i).qnum := by
  by_cases hio : i = o
  · subst hio
    by_cases hlt : i < w.length
    · rw [getP_setP_self _ _ _ hlt]
    · push_neg at hlt
      rw [getP_eq_default _ _ (by rw [length_setP]; exact hlt), getP_eq_default _ _ hlt]
  · rw [getP_setP_ne _ _ _ _ hio]

/-- One quantum operation of the no-measurement fragment: a `split`, a one-
blocker entangle or a two-blocker entangle, with the piece references given as
world indices (quant.py lines 57–180). -/
inductive QOp where
  | opSplit (selfI : Nat) (iAdd : StateId) (pos1 pos2 : Square)
  | opEntOne (selfI : Nat) (iAdd : StateId) (pos1 : Square) (objI : Nat) (objAdd : StateId)
  | opEntTwo (selfI : Nat) (iAdd : StateId) (pos1 pos2 : Square)
      (obj1I : Nat) (obj1Add : StateId) (obj2I : Nat) (obj2Add : StateId)

/-- Apply one operation to the world (the `none` of the underlying method is a
raised Python exception). -/
def applyOp (w : World) : QOp → Option World
  | QOp.opSplit i a p1 p2 =>
      ((getP w i).split a p1 p2).map (fun qp => setP w i qp)
  | QOp.opEntOne i a p1 o oa => QuantumPiece.entangle_oneblock w i a p1 o oa
  | QOp.opEntTwo i a p1 p2 o1 oa1 o2 oa2 =>
      QuantumPiece.entangle_twoblock w i a p1 p2 o1 oa1 o2 oa2

/-- Apply a finite sequence of operations left to right. -/
def applyOps : World → List QOp → Option World
  | w, [] => some w
  | w, op :: rest => (applyOp w op).bind (fun w1 => applyOps w1 rest)

/-- Validity of a state identifier for an operation: the child ids about to be
created do not collide with existing keys (they never do when the keys are the
leaves of the probability tree, which is how the game produces them; a
colliding id would make the Python dict assignment silently overwrite a foreign
branch). -/
def freshOp (w : World) : QOp → Prop
  | QOp.opSplit i a _ _ =>
      qlookup (getP w i).qnum (a ++ "0") = none ∧
      qlookup (getP w i).qnum (a ++ "1") = none
  | QOp.opEntOne i a _ _ _ =>
      qlookup (getP w i).qnum (a ++ "0") = none ∧
      qlookup (getP w i).qnum (a ++ "1") = none
  | QOp.opEntTwo i a _ _ _ _ _ _ =>
      qlookup (getP w i).qnum (a ++ "0") = none ∧
      qlookup (getP w i).qnum (a ++ "1") = none ∧
      qlookup (getP w i).qnum (a ++ "00") = none ∧
      qlookup (getP w i).qnum (a ++ "01") = none ∧
      qlookup (getP w i).qnum (a ++ "10") = none

/-- A sequence of operations, each valid and succeeding from the state the
previous ones produced. -/
inductive ValidOps : World → List QOp → Prop where
  | nil (w : World) : ValidOps w []
  | cons (w : World) (op : QOp) (w1 : World) (ops : List QOp) :
      freshOp w op → applyOp w op = some w1 → ValidOps w1 ops →
      ValidOps w (op :: ops)

/-- Each single operation preserves the probability mass of every piece's
ProbabilityState: the split halves sum back to the parent, and both entangle
variants distribute the mover's branch into branches whose probabilities sum to
the original (the blockers' `qnum`s are untouched, only their `ent` grows). -/
theorem applyOp_sumProbs (w : World) (op : QOp) (w1 : World)
    (hf : freshOp w op) (ha : applyOp w op = some w1) (i : Nat) :
    sumProbs (getP w1 i).qnum = sumProbs (getP w i).qnum := by
  cases op with
  | opSplit j a p1 p2 =>
      obtain ⟨hf0, hf1⟩ := hf
      simp only [applyOp] at ha
      cases hx : qlookup (getP w j).qnum a with
      | none => simp [QuantumPiece.split, hx] at ha
      | some v =>
          obtain ⟨sq, p⟩ := v
          obtain ⟨hneA0, hneA1, hne01⟩ := child_ids_distinct a
          simp only [QuantumPiece.split, hx, Option.map_some', Option.some.injEq] at ha
          obtain rfl := ha.symm
          have hj : j < w.length := lt_length_of_qlookup_some w j a (sq, p) hx
          by_cases hij : i = j
          · subst hij
            rw [getP_setP_self _ _ _ hj]
            have h2 := sumProbs_replace2 (getP w i).qnum a (a ++ "0") (a ++ "1")
              (p1, p / 2) (p2, p / 2) sq p hneA0 hneA1 hne01 hx hf0 hf1
            exact h2.trans (by ring)
          · rw [getP_setP_ne _ _ _ _ hij]
  | opEntOne j a p1 o oa =>
      obtain ⟨hf0, hf1⟩ := hf
      simp only [applyOp] at ha
      cases hx : qlookup (getP w j).qnum a with
      | none => simp [QuantumPiece.entangle_oneblock, hx] at ha
      | some v =>
          obtain ⟨sq, x⟩ := v
          cases hy : qlookup (getP w o).qnum oa with
          | none => simp [QuantumPiece.entangle_oneblock, hx, hy] at ha
          | some vy =>
              obtain ⟨osq, y⟩ := vy
              cases hfl : flipLast oa with
              | none => simp [QuantumPiece.entangle_oneblock, hx, hy, hfl] at ha
              | some ls =>
                  obtain ⟨hneA0, hneA1, hne01⟩ := child_ids_distinct a
                  simp only [QuantumPiece.entangle_oneblock, hx, hy, hfl,
                    Option.some.injEq] at ha
                  obtain rfl := ha.symm
                  have hj : j < w.length := lt_length_of_qlookup_some w j a (sq, x) hx
                  rw [getP_qnum_entSet, getP_qnum_entSet]
                  by_cases hij : i = j
                  · subst hij
                    rw [getP_setP_self _ _ _ hj]
                    have h2 := sumProbs_replace2 (getP w i).qnum a (a ++ "0") (a ++ "1")
                      (sq, x * y) (p1, x * (1 - y)) sq x hneA0 hneA1 hne01 hx hf0 hf1
                    exact h2.trans (by ring)
                  · rw [getP_setP_ne _ _ _ _ hij]
  | opEntTwo j a p1 p2 o1 oa1 o2 oa2 =>
      obtain ⟨hf0, hf1, hf00, hf01, hf10⟩ := hf
      simp only [applyOp] at ha
      cases hx : qlookup (getP w j).qnum a with
      | none => simp [QuantumPiece.entangle_twoblock, hx] at ha
      | some v =>
          obtain ⟨sq, x⟩ := v
          cases hy1 : qlookup (getP w o1).qnum oa1 with
          | none => simp [QuantumPiece.entangle_twoblock, hx, hy1] at ha
          | some vy1 =>
              obtain ⟨osq1, y1⟩ := vy1
              cases hy2 : qlookup (getP w o2).qnum oa2 with
              | none => simp [QuantumPiece.entangle_twoblock, hx, hy1, hy2] at ha
              | some vy2 =>
                  obtain ⟨osq2, y2⟩ := vy2
                  cases hfl1 : flipLast oa1 with
                  | none => simp [QuantumPiece.entangle_twoblock, hx, hy1, hy2, hfl1] at ha
                  | some ls1 =>
                      cases hfl2 : flipLast oa2 with
                      | none =>
                          simp [QuantumPiece.entangle_twoblock, hx, hy1, hy2,
                            hfl1, hfl2] at ha
                      | some ls2 =>
                          have hj : j < w.length :=
                            lt_length_of_qlookup_some w j a (sq, x) hx
                          by_cases hoo : o1 = o2
                          · obtain ⟨hneA0, hneA1, hne01⟩ := child_ids_distinct a
                            simp only [QuantumPiece.entangle_twoblock, hx, hy1, hy2,
                              hfl1, hfl2, if_pos hoo, Option.some.injEq] at ha
                            obtain rfl := ha.symm
                            rw [getP_qnum_entSet, getP_qnum_entSet, getP_qnum_entSet]
                            by_cases hij : i = j
                            · subst hij
                              rw [getP_setP_self _ _ _ hj]
                              have h2 := sumProbs_replace2 (getP w i).qnum a
                                (a ++ "0") (a ++ "1")
                                (p1, x * y2 + 1 / 2 * x * (1 - y1 - y2))
                                (p2, x * y1 + 1 / 2 * x * (1 - y1 - y2)) sq x
                                hneA0 hneA1 hne01 hx hf0 hf1
                              exact h2.trans (by ring)
                            · rw [getP_setP_ne _ _ _ _ hij]
                          · obtain ⟨hneA00, hneA01, hneA10, hne0001, hne0010, hne0110⟩ :=
                              child3_ids_distinct a
                            simp only [QuantumPiece.entangle_twoblock, hx, hy1, hy2,
                              hfl1, hfl2, if_neg hoo, Option.some.injEq] at ha
                            obtain rfl := ha.symm
                            rw [getP_qnum_entSet, getP_qnum_entSet, getP_qnum_entSet]
                            by_cases hij : i = j
                            · subst hij
                              rw [getP_setP_self _ _ _ hj]
                              have h2 := sumProbs_replace3 (getP w i).qnum a
                                (a ++ "00") (a ++ "01") (a ++ "10")
                                (sq, x * y1 * y2)
                                (p1, x * (1 - y1) * y2 + 1 / 2 * x * (1 - y1) * (1 - y2))
                                (p2, x * y1 * (1 - y2) + 1 / 2 * x * (1 - y1) * (1 - y2))
                                sq x hneA00 hneA01 hneA10 hne0001 hne0010 hne0110
                                hx hf00 hf01 hf10
                              exact h2.trans (by ring)
                            · rw [getP_setP_ne _ _ _ _ hij]

/-- C3: over any finite, valid sequence of split / entangle_oneblock /
entangle_twoblock operations with no measurement, every piece whose
ProbabilityState summed to 1 still sums to exactly 1 afterwards (so in
particular within the spec's 1e-9 tolerance). -/
theorem conservation (ops : List QOp) :
    ∀ (w w' : World), ValidOps w ops → applyOps w ops = some w' →
    ∀ i : Nat, sumProbs (getP w i).qnum = 1 → sumProbs (getP w' i).qnum = 1 := by
  induction ops with
  | nil =>
      intro w w' _ ha i hsum
      simp only [applyOps, Option.some.injEq] at ha
      rw [← ha]
      exact hsum
  | cons op rest ih =>
      intro w w' hv ha i hsum
      cases hv with
      | cons _ _ w1 _ hf hao hrest =>
          simp only [applyOps, hao, Option.some_bind] at ha
          exact ih w1 w' hrest ha i ((applyOp_sumProbs w op w1 hf hao i).trans hsum)

/-- C3 witness: a split of piece 0 followed by a one-blocker entangle of piece
1 through piece 0's branch — both pieces still carry total probability exactly
1 afterwards. -/
theorem conservation_witness :
    ∃ w', applyOps
        [⟨ "P", [( "0", ( "a2", 1))], []⟩, ⟨ "p", [( "0", ( "b7", 1))], []⟩]
        [QOp.opSplit 0 "0" "a3" "a4", QOp.opEntOne 1 "0" "b5" 0 "00"] = some w' ∧
      sumProbs (getP w' 0).qnum = 1 ∧ sumProbs (getP w' 1).qnum = 1 := by
  have hv : ValidOps [⟨ "P", [( "0", ( "a2", 1))], []⟩, ⟨ "p", [( "0", ( "b7", 1))], []⟩]
      [QOp.opSplit 0 "0" "a3" "a4", QOp.opEntOne 1 "0" "b5" 0 "00"] :=
    ValidOps.cons _ _ _ _ ⟨rfl, rfl⟩ rfl
      (ValidOps.cons _ _ _ _ ⟨rfl, rfl⟩ rfl (ValidOps.nil _))
  refine ⟨_, rfl, ?_, ?_⟩
  · refine conservation _ _ _ hv rfl 0 ?_
    simp [getP, sumProbs, List.get?]
  · refine conservation _ _ _ hv rfl 1 ?_
    simp [getP, sumProbs, List.get?]

theorem foldl_detangleStep_getP (fs : StateId) (l : List (Nat × StateId × StateId))
    (w : World) (q : Nat) (h : ∀ e ∈ l, e.1 ≠ q) :
    getP (l.foldl (QuantumPiece.detangleStep fs) w) q = getP w q := by
  induction l generalizing w with
  | nil => rfl
  | cons e rest ih =>
      rw [List.foldl_cons, ih _ (fun x hx => h x (List.mem_cons_of_mem _ hx))]
      by_cases hc : idStartsWith e.2.2 fs = true
      · simp only [QuantumPiece.detangleStep, if_pos hc]
        exact getP_setP_ne _ _ _ _ (Ne.symm (h e (List.mem_cons_self _ _)))
      · simp only [QuantumPiece.detangleStep, if_neg hc]

theorem foldl_detangleStep_length (fs : StateId) (l : List (Nat × StateId × StateId))
    (w : World) :
    (l.foldl (QuantumPiece.detangleStep fs) w).length = w.length := by
  induction l generalizing w with
  | nil => rfl
  | cons e rest ih =>
      rw [List.foldl_cons, ih]
      by_cases hc : idStartsWith e.2.2 fs = true
      · simp only [QuantumPiece.detangleStep, if_pos hc, length_setP]
      · simp only [QuantumPiece.detangleStep, if_neg hc]

/-- C2 (amended): the collapse propagation of `measure()` is exactly one hop.
Every entanglement tuple in the *measured piece's own* list whose condition
state is a prefix of the winning state id triggers `detangle` on that direct
partner — but the partners' own entanglement lists are never processed, so any
piece that is not a direct partner of the measured piece (even one linked to a
partner, i.e. in the same connected component) is left completely unchanged.
The measured piece itself ends with the single branch `"0" ↦ (winning square,
1)`, an empty entanglement list, and the call returns probability 1. -/
theorem measure_one_hop (w : World) (selfI : Nat) (finalState : StateId)
    (res : (Square × Rat) × World)
    (hm : QuantumPiece.measure_collapse w selfI finalState = some res) :
    (∀ q, q ≠ selfI → (∀ e ∈ (getP w selfI).ent, e.1 ≠ q) →
      getP res.2 q = getP w q) ∧
    (selfI < w.length →
      (getP res.2 selfI).qnum = [( "0", (res.1.1, 1))] ∧
      (getP res.2 selfI).ent = []) ∧
    res.1.2 = 1 := by
  simp only [QuantumPiece.measure_collapse] at hm
  cases hl : qlookup (getP ((getP w selfI).ent.foldl
      (QuantumPiece.detangleStep finalState) w) selfI).qnum finalState with
  | none =>
      simp only [hl] at hm
      exact Option.noConfusion hm
  | some v =>
      obtain ⟨pos, pr⟩ := v
      simp only [hl, Option.some.injEq] at hm
      obtain rfl := hm.symm
      refine ⟨?_, ?_, rfl⟩
      · intro q hq hnp
        show getP (setP _ _ _) q = getP w q
        rw [getP_setP_ne _ _ _ _ hq]
        exact foldl_detangleStep_getP finalState _ w q hnp
      · intro hlen
        constructor
        · show (getP (setP _ _ _) selfI).qnum = _
          rw [getP_setP_self]
          rw [foldl_detangleStep_length]
          exact hlen
        · show (getP (setP _ _ _) selfI).ent = []
          rw [getP_setP_self]
          rw [foldl_detangleStep_length]
          exact hlen

/-- The three-piece entanglement chain after its construction: piece 1 (a black
pawn) was split across d4/d5; piece 0 (a rook) tried to move through d4 and got
entangled with piece 1; piece 2 (a knight) tried to move through d5 and also
got entangled with piece 1. Piece 0 and piece 2 are linked only through piece
1. -/
def cascadeWorld : World :=
  [⟨ "R", [( "00", ( "a4", 1/2)), ( "01", ( "e4", 1/2))],
      [(1, "00", "01"), (1, "01", "00")]⟩,
   ⟨ "p", [( "00", ( "d4", 1/2)), ( "01", ( "d5", 1/2))],
      [(0, "01", "00"), (0, "00", "01"), (2, "01", "01"), (2, "00", "00")]⟩,
   ⟨ "N", [( "00", ( "c4", 1/2)), ( "01", ( "f5", 1/2))],
      [(1, "01", "01"), (1, "00", "00")]⟩]

/-- The world `measure()` leaves behind when piece 0 of `cascadeWorld` collapses
into its moved branch `"01"`: piece 1 is pruned to d5, piece 2 untouched. -/
def cascadeResult : World :=
  [⟨ "R", [( "0", ( "e4", 1))], []⟩,
   ⟨ "p", [( "01", ( "d5", 1))],
      [(0, "01", "00"), (0, "00", "01"), (2, "01", "01"), (2, "00", "00")]⟩,
   ⟨ "N", [( "00", ( "c4", 1/2)), ( "01", ( "f5", 1/2))],
      [(1, "01", "01"), (1, "00", "00")]⟩]

/-- C2 counterexample: in the three-piece chain, measuring piece 0 with winning
state `"01"` (piece 0 moved, so piece 1 cannot be at d4) prunes piece 1 to its
d5 branch — after which piece 1's surviving link `(2, "01", "01")` makes piece
2's branch `"01"` (moved through d5) inconsistent. A transitive closure over
the connected component would detangle piece 2 to `[("00", ("c4", 1))]`; the
code leaves piece 2 completely unchanged, both branches still at probability
1/2. -/
theorem measure_cascade_cex :
    applyOps
        [⟨ "R", [( "0", ( "a4", 1))], []⟩, ⟨ "p", [( "0", ( "d4", 1))], []⟩,
         ⟨ "N", [( "0", ( "c4", 1))], []⟩]
        [QOp.opSplit 1 "0" "d4" "d5", QOp.opEntOne 0 "0" "e4" 1 "00",
         QOp.opEntOne 2 "0" "f5" 1 "01"] = some cascadeWorld ∧
      QuantumPiece.measure_collapse cascadeWorld 0 "01"
        = some (( "e4", 1), cascadeResult) ∧
      (2, "01", "01") ∈ (getP cascadeResult 1).ent ∧
      qlookup (getP cascadeResult 1).qnum "01" = some ( "d5", 1) ∧
      getP cascadeResult 2 = getP cascadeWorld 2 ∧
      qlookup (getP cascadeResult 2).qnum "01" = some ( "f5", 1/2) ∧
      (getP cascadeResult 2).qnum ≠ [( "00", ( "c4", 1))] := by
  refine ⟨?_, ?_, by decide, rfl, rfl, rfl, ?_⟩
  · simp +decide [applyOps, applyOp, QuantumPiece.split, QuantumPiece.entangle_oneblock,
      flipLast, qlookup, qset, qdel, getP, setP, List.get?, cascadeWorld]
    norm_num
  · simp +decide [QuantumPiece.measure_collapse, QuantumPiece.detangleStep,
      QuantumPiece.detangle, idStartsWith, sumProbs, qlookup, getP, setP,
      List.get?, cascadeWorld, cascadeResult]
  · intro h
    simpa [cascadeResult, getP, List.get?] using congrArg List.length h

/-- C2 witness: the one-hop theorem applied to the three-piece chain — piece 2,
which is not a direct partner of the measured piece 0, is unchanged, and piece
0 itself collapses to a single probability-1 branch with no links. -/
theorem measure_one_hop_witness :
    (∀ q, q ≠ 0 → (∀ e ∈ (getP cascadeWorld 0).ent, e.1 ≠ q) →
      getP cascadeResult q = getP cascadeWorld q) ∧
    ((0:Nat) < cascadeWorld.length →
      (getP cascadeResult 0).qnum = [( "0", ( "e4", 1))] ∧
      (getP cascadeResult 0).ent = []) ∧
    ((1:Rat) = 1) :=
  measure_one_hop cascadeWorld 0 "01" (( "e4", 1), cascadeResult)
    (by simp +decide [QuantumPiece.measure_collapse, QuantumPiece.detangleStep,
      QuantumPiece.detangle, idStartsWith, sumProbs, qlookup, getP, setP,
      List.get?, cascadeWorld, cascadeResult])

/-- The two rejection responses `make_move` can produce *after* a measurement
has happened (attacker or defender collapsed elsewhere). -/
def isCaptureFailed : MoveResponse → Prop
  | MoveResponse.captureFailedAttacker _ _ => True
  | MoveResponse.captureFailedDefender _ _ => True
  | _ => False

/-- C4 (amended): when a declared capture is rejected after measurement, the
stored game row is left entirely unchanged — the mover's displacement is not
applied to the classical board, and the measurement's collapse is NOT persisted
either: both `capture failed` paths of `make_move` (views.py lines 218–223 and
244–249) return before `game_obj.save()` (line 284), so the measured copy of
the quantum pieces is discarded with the request. -/
theorem make_move_rejection_not_persisted (game : GameState) (fromSq toSq : Square)
    (reqQM : Bool) (api : ChessApi) (aOut dOut : Square)
    (r : MoveResponse) (s : GameState)
    (heq : Views.make_move game fromSq toSq reqQM api aOut dOut = (r, s))
    (hr : isCaptureFailed r) : s = game := by
  simp only [Views.make_move] at heq
  repeat' split at heq
  all_goals cases heq
  all_goals first | rfl | exact hr.elim

/-- C4 counterexample: a classical piece on d3 declares a capture on e4, where
only a quantum piece (branches e4 and e5, each 1/2) lives; its measurement
collapses it to e5, so the capture is rejected. The stored game row returned
with the rejection is exactly the original one: the stored quantum piece still
holds both branches of the superposition — its collapse was NOT persisted,
refuting the claim's "the measurement's collapse ... IS persisted into the
stored game state" (only the in-memory deep copy of line 172 was measured). -/
theorem make_move_persistence_cex :
    Views.make_move
        ⟨ "F0", true, true,
          [⟨ "p", "e4", [( "00", ( "e4", 1/2)), ( "01", ( "e5", 1/2))], []⟩], "active"⟩
        "d3" "e4" true
        ⟨false, false, fun _ => false, "F1", "dxe4", "active"⟩ "d3" "e5"
      = (MoveResponse.captureFailedDefender "e5" "F0",
         ⟨ "F0", true, true,
          [⟨ "p", "e4", [( "00", ( "e4", 1/2)), ( "01", ( "e5", 1/2))], []⟩], "active"⟩) ∧
      ∀ d ∈ (⟨ "F0", true, true,
          [⟨ "p", "e4", [( "00", ( "e4", 1/2)), ( "01", ( "e5", 1/2))], []⟩],
          "active"⟩ : GameState).quantumPieces, d.qnum.length = 2 :=
  ⟨rfl, by decide⟩

/-- C4 witness: the rejection-leaves-state-unchanged theorem applied at the
concrete rejected capture above. -/
theorem make_move_rejection_witness :
    Views.make_move
        ⟨ "F0", true, true,
          [⟨ "p", "e4", [( "00", ( "e4", 1/2)), ( "01", ( "e5", 1/2))], []⟩], "active"⟩
        "d3" "e4" true
        ⟨false, false, fun _ => false, "F1", "dxe4", "active"⟩ "d3" "e5"
      = (MoveResponse.captureFailedDefender "e5" "F0",
         ⟨ "F0", true, true,
          [⟨ "p", "e4", [( "00", ( "e4", 1/2)), ( "01", ( "e5", 1/2))], []⟩], "active"⟩) ∧
      (⟨ "F0", true, true,
          [⟨ "p", "e4", [( "00", ( "e4", 1/2)), ( "01", ( "e5", 1/2))], []⟩],
          "active"⟩ : GameState)
        = ⟨ "F0", true, true,
          [⟨ "p", "e4", [( "00", ( "e4", 1/2)), ( "01", ( "e5", 1/2))], []⟩], "active"⟩ :=
  ⟨rfl,
   make_move_rejection_not_persisted
     ⟨ "F0", true, true,
       [⟨ "p", "e4", [( "00", ( "e4", 1/2)), ( "01", ( "e5", 1/2))], []⟩], "active"⟩
     "d3" "e4" true ⟨false, false, fun _ => false, "F1", "dxe4", "active"⟩ "d3" "e5"
     (MoveResponse.captureFailedDefender "e5" "F0")
     ⟨ "F0", true, true,
       [⟨ "p", "e4", [( "00", ( "e4", 1/2)), ( "01", ( "e5", 1/2))], []⟩], "active"⟩
     rfl trivial⟩

/-- C9: evaluation of the code at the failing input. A fresh game (no quantum
pieces, quantum mode off) with a white pawn on e2 requests the split
`e2 → d5 / h8` — both targets empty, *neither reachable by a pawn*. The routed
endpoint (`views.quantum_split`, whose own docstring says "Split requires two
legal destination squares") accepts: it never consults the movement rule (its
collaborator inputs contain no legal-move query at all), performs the split and
saves the two branches at d5 and h8 with probability 1/2 each. -/
theorem quantum_split_no_reachability_check :
    Views.quantum_split ⟨ "startfen", true, false, [], "active"⟩ "e2" "d5" "h8"
        ⟨some "P", false, false, "fen1", false, "active"⟩
      = (SplitResponse.splitDone
          [⟨ "P", "d5", [( "00", ( "d5", 1/2)), ( "01", ( "h8", 1/2))], []⟩] "fen1",
         ⟨ "fen1", false, true,
          [⟨ "P", "d5", [( "00", ( "d5", 1/2)), ( "01", ( "h8", 1/2))], []⟩], "active"⟩) :=
  rfl

/-- The non-routed variant in views_updated.py does perform the validation the
claim describes: whenever one of the targets is not a legal move of the piece
on the source square, it rejects and leaves the stored game unchanged. -/
theorem quantum_split_updated_validates (game : GameState) (f t1 t2 : Square)
    (api : SplitApiU) (sym : String)
    (hfrom : api.pieceAtFrom = some sym)
    (h : ¬api.isLegalTarget1 ∨ ¬api.isLegalTarget2) :
    ViewsUpdated.quantum_split game f t1 t2 api
      = (SplitResponseU.illegalTargets, game) := by
  simp only [ViewsUpdated.quantum_split, hfrom]
  rw [if_pos h]
